import Mathlib

/-!
Verification development for the godot-mcp runtime bridge.

The development shallowly embeds the three source modules:

* the embedded GDScript UDP listener (`mcp_bridge.gd`): input-batch
  processing, UI-tree collection, element resolution;
* the TypeScript session manager (`GodotRunner`): autoload
  injection/removal into a project's configuration, project run lifecycle,
  and the per-call UDP `sendCommand`;
* the tool handlers (`handleManageScene`) with their `validatePath` guard.

File contents are embedded as `List Char`; machine state (filesystem,
listener, socket call) is explicit.  All definitions are executable.
-/

set_option linter.unusedVariables false

/-! ## Shared string helpers (JS / GDScript semantics) -/

/-- The characters of a string literal. -/
def chars (s : String) : List Char := s.toList

/-- JS `String.prototype.includes` / GDScript `in`, as substring test. -/
def listIncl (hay pat : List Char) : Bool := decide (pat <:+: hay)

/-- JS `String.prototype.includes` on Lean strings. -/
def strIncludes (s sub : String) : Bool := listIncl s.toList sub.toList

/-- JS whitespace class (`\s`), restricted to the characters that can occur
in the configuration files handled here (ASCII whitespace plus NBSP/BOM). -/
def isJsWs (c : Char) : Bool :=
  c = ' ' || c = '\t' || c = '\n' || c = '\r' || c = '\x0b' || c = '\x0c' ||
  c = ' ' || c = '﻿'

/-- JS `String.prototype.trimEnd`. -/
def trimEndJs (cs : List Char) : List Char := (cs.reverse.dropWhile isJsWs).reverse

/-! ## Variant values (GDScript `Variant` restricted to JSON-transmissible data) -/

/-- A GDScript `Variant` as it appears after `JSON.parse`: null, bool,
int, float (modelled as `ℚ`), string, array, dictionary. -/
inductive GVal where
  | vnull
  | vbool (b : Bool)
  | vint (n : Int)
  | vfloat (q : ℚ)
  | vstr (s : String)
  | varr (elems : List GVal)
  | vdict (entries : List (String × GVal))

/-- GDScript `Dictionary.get(key, default)`. -/
def dictGet (d : List (String × GVal)) (k : String) (dflt : GVal) : GVal :=
  match d.find? (fun e => e.fst == k) with
  | some e => e.snd
  | none => dflt

/-- GDScript `Dictionary.has(key)`. -/
def dictHas (d : List (String × GVal)) (k : String) : Bool :=
  (d.find? (fun e => e.fst == k)).isSome

/-- GDScript `str(value)`.  Composite values are abbreviated since no
command path under verification displays them. -/
def gvalStr : GVal → String
  | .vnull => "<null>"
  | .vbool b => if b then "true" else "false"
  | .vint n => toString n
  | .vfloat q => toString q
  | .vstr s => s
  | .varr _ => "<array>"
  | .vdict _ => "<dictionary>"

/-- Coercion of a variant into a `String` variable (GDScript typed
assignment; non-string variants do not occur on the verified paths). -/
def asStr (v : GVal) : String := gvalStr v

/-- Coercion of a variant into a `bool` property. -/
def asBool : GVal → Bool
  | .vbool b => b
  | _ => false

/-- Coercion of a variant into a `float` property (ints promote). -/
def asNum : GVal → ℚ
  | .vint n => (n : ℚ)
  | .vfloat q => q
  | _ => 0

/-- `typeof(v) == TYPE_FLOAT or typeof(v) == TYPE_INT`. -/
def isNumberG : GVal → Bool
  | .vint _ => true
  | .vfloat _ => true
  | _ => false

/-- Strict positivity test `v > 0` on a numeric variant. -/
def numPos : GVal → Bool
  | .vint n => decide (0 < n)
  | .vfloat q => decide (0 < q)
  | _ => false

/-! ## Live scene-tree model

The listener reads the engine's live node tree.  A node carries the
engine-maintained attributes the listener queries (`is_class` ancestry,
`is_visible_in_tree`, `get_global_rect`, text/disabled/tooltip fields, the
absolute `get_path` string). -/

/-- A global-space rectangle (`Control.get_global_rect`). -/
structure GRect where
  x : ℚ
  y : ℚ
  width : ℚ
  height : ℚ
deriving DecidableEq

/-- Engine-maintained node attributes queried by the listener. -/
structure NodeData where
  name : String
  klass : String
  /-- all class names `n.is_class` answers `true` for (own class and
  ancestors), e.g. `["Button", "BaseButton", "Control", "Node"]`. -/
  ancestry : List String
  pathStr : String
  visibleInTree : Bool
  rect : GRect
  text : String
  placeholderText : String
  disabled : Bool
  tooltipText : String
deriving DecidableEq

/-- A node of the live tree. -/
inductive GNode where
  | mk (data : NodeData) (children : List GNode)

/-- The node's attribute record. -/
def GNode.data : GNode → NodeData
  | .mk d _ => d

/-- The node's children, in tree order. -/
def GNode.children : GNode → List GNode
  | .mk _ cs => cs

/-- GDScript `node.is_class(s)`. -/
def NodeData.isClassOf (d : NodeData) (s : String) : Bool := d.ancestry.contains s

/-- GDScript `node is Control`. -/
def NodeData.isControl (d : NodeData) : Bool := d.isClassOf "Control"

mutual
/-- Number of nodes in the subtree rooted at `n`. -/
def GNode.size : GNode → Nat
  | .mk _ cs => 1 + GNode.sizeList cs
/-- Number of nodes in a forest. -/
def GNode.sizeList : List GNode → Nat
  | [] => 0
  | c :: cs => GNode.size c + GNode.sizeList cs
end

theorem GNode.size_pos (n : GNode) : 0 < n.size := by
  cases n with
  | mk d cs => simp [GNode.size]

theorem GNode.sizeList_lt_of_mem {c : GNode} {cs : List GNode} (h : c ∈ cs) :
    GNode.size c ≤ GNode.sizeList cs := by
  induction cs with
  | nil => cases h
  | cons x xs ih =>
    rcases List.mem_cons.1 h with h1 | h2
    · subst h1; simp [GNode.sizeList]
    · have := ih h2; simp [GNode.sizeList]; omega

theorem GNode.size_lt_of_mem {c : GNode} {d : NodeData} {cs : List GNode} (h : c ∈ cs) :
    GNode.size c < GNode.size (.mk d cs) := by
  have := GNode.sizeList_lt_of_mem h
  simp [GNode.size]; omega

/-- Structural induction over the live tree that provides the induction
hypothesis for every child. -/
theorem GNode.inductionOn {P : GNode → Prop} (n : GNode)
    (h : ∀ d cs, (∀ c, c ∈ cs → P c) → P (.mk d cs)) : P n :=
  match n with
  | .mk d cs => h d cs (fun c hc => GNode.inductionOn c h)
termination_by GNode.size n
decreasing_by exact GNode.size_lt_of_mem hc

/-! ## UI Tree Walker (`_collect_control_nodes`) -/

/-- One record of the `get_ui_elements` result
(`{name, type, path, rect, visible, text?, placeholder?, disabled?, tooltip?}`). -/
structure UIElem where
  name : String
  type : String
  path : String
  rect : GRect
  visible : Bool
  text : Option String
  placeholder : Option String
  disabled : Option Bool
  tooltip : Option String
deriving DecidableEq

/-- The element dictionary built for one collected `Control`
(lines 306–336 of the listener). -/
def elementOf (d : NodeData) : UIElem :=
  let base : UIElem :=
    { name := d.name, type := d.klass, path := d.pathStr, rect := d.rect,
      visible := d.visibleInTree,
      text := none, placeholder := none, disabled := none, tooltip := none }
  let withText :=
    if d.isClassOf "Button" then { base with text := some d.text }
    else if d.isClassOf "Label" then { base with text := some d.text }
    else if d.isClassOf "LineEdit" then
      { base with text := some d.text, placeholder := some d.placeholderText }
    else if d.isClassOf "TextEdit" then { base with text := some d.text }
    else if d.isClassOf "RichTextLabel" then { base with text := some d.text }
    else base
  let withDisabled :=
    if d.isClassOf "BaseButton" then { withText with disabled := some d.disabled }
    else withText
  if d.tooltipText ≠ "" then { withDisabled with tooltip := some d.tooltipText }
  else withDisabled

mutual
/-- `_collect_control_nodes(node, elements, visible_only, type_filter)`:
depth-first walk appending element records.  An invisible `Control` (under
`visible_only`) prunes its subtree; a `Control` failing the type filter is
skipped but its children are still walked. -/
def collectControlNodes (visibleOnly : Bool) (typeFilter : String) : GNode → List UIElem
  | .mk d cs =>
    if d.isControl then
      if visibleOnly && !d.visibleInTree then []
      else if typeFilter ≠ "" && !(d.isClassOf typeFilter) then
        collectChildren visibleOnly typeFilter cs
      else
        elementOf d :: collectChildren visibleOnly typeFilter cs
    else
      collectChildren visibleOnly typeFilter cs
/-- The children loop of `_collect_control_nodes`. -/
def collectChildren (visibleOnly : Bool) (typeFilter : String) : List GNode → List UIElem
  | [] => []
  | c :: cs =>
    collectControlNodes visibleOnly typeFilter c ++ collectChildren visibleOnly typeFilter cs
end

mutual
/-- The nodes the walk would report with no type filter: the preorder
listing of reachable `Control`s (invisible subtrees pruned under
`visible_only`).  Used to characterise how the type filter acts. -/
def collectVisited (visibleOnly : Bool) : GNode → List NodeData
  | .mk d cs =>
    if d.isControl then
      if visibleOnly && !d.visibleInTree then []
      else d :: visitedChildren visibleOnly cs
    else visitedChildren visibleOnly cs
/-- Forest version of `collectVisited`. -/
def visitedChildren (visibleOnly : Bool) : List GNode → List NodeData
  | [] => []
  | c :: cs => collectVisited visibleOnly c ++ visitedChildren visibleOnly cs
end

/-! ## Element resolution (`_find_control_by_identifier`) -/

/-- `Node.get_node_or_null` on a relative path: descend through children by
name, first match at each level. -/
def getNodeRel : GNode → List String → Option GNode
  | n, [] => some n
  | n, seg :: rest =>
    match n.children.find? (fun c => c.data.name == seg) with
    | some c => getNodeRel c rest
    | none => none

/-- Split a character list on `'/'` (the segment decomposition of a
`NodePath`), accumulator-first. -/
def splitSlash : List Char → List Char → List String
  | acc, [] => [String.mk acc.reverse]
  | acc, c :: cs =>
    if c = '/' then String.mk acc.reverse :: splitSlash [] cs
    else splitSlash (c :: acc) cs

/-- `root.get_node_or_null(NodePath(identifier))` from the tree root: an
absolute path first matches the root's own name, a relative path descends
from the root. -/
def getNodeByPath (root : GNode) (identifier : String) : Option GNode :=
  match chars identifier with
  | '/' :: rest =>
    (match splitSlash [] rest with
     | [] => none
     | seg :: segs => if seg == root.data.name then getNodeRel root segs else none)
  | cs => getNodeRel root (splitSlash [] cs)

/-- The breadth-first fallback of `_find_control_by_identifier`: pop the
queue front, return it if it is a `Control` with the exact name, otherwise
enqueue its children.  The fuel is instantiated with the total node count,
which is exactly the number of iterations a full traversal needs. -/
def bfsByName (identifier : String) : Nat → List GNode → Option GNode
  | _, [] => none
  | 0, _ => none
  | fuel + 1, n :: rest =>
    if n.data.isControl && n.data.name == identifier then some n
    else bfsByName identifier fuel (rest ++ n.children)

/-- `_find_control_by_identifier`: absolute path, then path relative to the
root, then breadth-first exact-name search; first `Control` found wins. -/
def findControlByIdentifier (root : GNode) (identifier : String) : Option GNode :=
  let isAbs : Bool :=
    match chars identifier with
    | '/' :: _ => true
    | _ => false
  let step1 : Option GNode :=
    if isAbs then
      match getNodeByPath root identifier with
      | some n => if n.data.isControl then some n else none
      | none => none
    else none
  match step1 with
  | some n => some n
  | none =>
    match getNodeByPath root identifier with
    | some n =>
      if n.data.isControl then some n
      else bfsByName identifier (GNode.size root) [root]
    | none => bfsByName identifier (GNode.size root) [root]

/-! ## Input Injector (`_handle_input` and the `_inject_*` helpers) -/

/-- A synthetic input event passed to `Input.parse_input_event`. -/
inductive IEvent where
  | key (keycode : Nat) (pressed echo shift ctrl alt : Bool)
  | mouseButton (button : Nat) (pressed : Bool) (x y : ℚ) (doubleClick : Bool)
  | mouseMotion (x y relx rely : ℚ)
  | actionPress (name : String) (strength : ℚ)
  | actionRelease (name : String)
deriving DecidableEq

/-- The engine services the listener consults: key-name resolution
(`OS.find_keycode_from_string`, `0` = `KEY_NONE`) and the live tree root. -/
structure Env where
  findKeycode : String → Nat
  root : GNode

/-- `MOUSE_BUTTON_LEFT/RIGHT/MIDDLE` resolution from a button name. -/
def mouseButtonIndex : String → Option Nat
  | "left" => some 1
  | "right" => some 2
  | "middle" => some 3
  | _ => none

/-- `_inject_key`: error message (`""` = success) and emitted events. -/
def injectKey (env : Env) (d : List (String × GVal)) : String × List IEvent :=
  let keyName := asStr (dictGet d "key" (.vstr ""))
  if keyName = "" then ("key name is required", [])
  else
    let keycode := env.findKeycode keyName
    if keycode = 0 then ("unrecognized key name: '" ++ keyName ++ "'", [])
    else
      ("", [.key keycode (asBool (dictGet d "pressed" (.vbool true))) false
              (asBool (dictGet d "shift" (.vbool false)))
              (asBool (dictGet d "ctrl" (.vbool false)))
              (asBool (dictGet d "alt" (.vbool false)))])

/-- `_inject_mouse_button`: one event when `pressed` is explicit, otherwise
a press immediately followed by a release. -/
def injectMouseButton (d : List (String × GVal)) : String × List IEvent :=
  let buttonName := asStr (dictGet d "button" (.vstr "left"))
  match mouseButtonIndex buttonName with
  | none => ("unknown button: '" ++ buttonName ++ "' (use 'left', 'right', or 'middle')", [])
  | some bi =>
    let x := asNum (dictGet d "x" (.vint 0))
    let y := asNum (dictGet d "y" (.vint 0))
    let dc := asBool (dictGet d "double_click" (.vbool false))
    if dictHas d "pressed" then
      ("", [.mouseButton bi (asBool (dictGet d "pressed" .vnull)) x y dc])
    else
      ("", [.mouseButton bi true x y dc, .mouseButton bi false x y false])

/-- `_inject_mouse_motion`: always succeeds with one motion event. -/
def injectMouseMotion (d : List (String × GVal)) : List IEvent :=
  [.mouseMotion (asNum (dictGet d "x" (.vint 0))) (asNum (dictGet d "y" (.vint 0)))
     (asNum (dictGet d "relative_x" (.vint 0))) (asNum (dictGet d "relative_y" (.vint 0)))]

/-- `_inject_action`: named logical input press/release. -/
def injectAction (d : List (String × GVal)) : String × List IEvent :=
  let actionName := asStr (dictGet d "action" (.vstr ""))
  if actionName = "" then ("action name is required", [])
  else
    let pressed := asBool (dictGet d "pressed" (.vbool true))
    let strength := asNum (dictGet d "strength" (.vfloat 1))
    if pressed then ("", [.actionPress actionName strength])
    else ("", [.actionRelease actionName])

/-- `_inject_click_element`: resolve the element, require visibility,
resolve the button, then synthesize press+release at the rectangle's
center.  Every failure returns before any event is emitted. -/
def injectClickElement (env : Env) (d : List (String × GVal)) : String × List IEvent :=
  let identifier := asStr (dictGet d "element" (.vstr ""))
  if identifier = "" then ("element identifier is required", [])
  else
    match findControlByIdentifier env.root identifier with
    | none => ("Could not find UI element: " ++ identifier, [])
    | some target =>
      if !target.data.visibleInTree then
        ("UI element '" ++ identifier ++ "' is not visible", [])
      else
        let buttonName := asStr (dictGet d "button" (.vstr "left"))
        match mouseButtonIndex buttonName with
        | none =>
          ("unknown button: '" ++ buttonName ++ "' (use 'left', 'right', or 'middle')", [])
        | some bi =>
          let dc := asBool (dictGet d "double_click" (.vbool false))
          let cx := target.data.rect.x + target.data.rect.width / 2
          let cy := target.data.rect.y + target.data.rect.height / 2
          ("", [.mouseButton bi true cx cy dc, .mouseButton bi false cx cy false])

/-- How a per-action error message is assembled in the `_handle_input` loop. -/
inductive FailKind where
  | notObject
  | typed (label msg : String)
  | unknownType (t : String)
deriving DecidableEq

/-- The formatted `error_msg` for a failure at index `idx`. -/
def formatErr (idx : Nat) : FailKind → String
  | .notObject => "Action at index " ++ toString idx ++ " is not an object"
  | .typed label m => "Action " ++ toString idx ++ " (" ++ label ++ "): " ++ m
  | .unknownType t => "Action " ++ toString idx ++ ": unknown type '" ++ t ++ "'"

/-- Outcome of one iteration of the `_handle_input` loop body for a single
action: success with emitted events, suspension at a positive `wait`, or a
failure (whose already-emitted events stay emitted). -/
inductive ActClass where
  | ok (events : List IEvent)
  | okWaitPos
  | fail (k : FailKind) (events : List IEvent)
deriving DecidableEq

/-- One iteration of the `_handle_input` loop body (lines 106–145):
dictionary check, dispatch on `type`, per-type injection. -/
def classifyAction (env : Env) (a : GVal) : ActClass :=
  match a with
  | .vdict d =>
    match dictGet d "type" (.vstr "") with
    | .vstr "key" =>
      let r := injectKey env d
      if r.1 = "" then .ok r.2 else .fail (.typed "key" r.1) r.2
    | .vstr "mouse_button" =>
      let r := injectMouseButton d
      if r.1 = "" then .ok r.2 else .fail (.typed "mouse_button" r.1) r.2
    | .vstr "mouse_motion" => .ok (injectMouseMotion d)
    | .vstr "action" =>
      let r := injectAction d
      if r.1 = "" then .ok r.2 else .fail (.typed "action" r.1) r.2
    | .vstr "click_element" =>
      let r := injectClickElement env d
      if r.1 = "" then .ok r.2 else .fail (.typed "click_element" r.1) r.2
    | .vstr "wait" =>
      let ms := dictGet d "ms" (.vint 0)
      if isNumberG ms then (if numPos ms then .okWaitPos else .ok [])
      else .fail (.typed "wait" "ms must be a number") []
    | t => .fail (.unknownType (gvalStr t)) []
  | _ => .fail .notObject []

/-- Reply envelope of the `input` command (and of the shape checks that
guard it): `{success, actions_processed}`, `{error, actions_processed}`, or
a plain `{error}` envelope. -/
inductive Reply where
  | success (actionsProcessed : Nat)
  | errorWithCount (msg : String) (actionsProcessed : Nat)
  | errorMsg (msg : String)
deriving DecidableEq

/-- Where a run of the `_handle_input` loop stops: a final reply, or a
suspension at an awaited positive `wait` (carrying `processed` before its
increment, and the remaining actions). -/
inductive StepRes where
  | done (r : Reply)
  | suspended (processed : Nat) (rest : List GVal)

/-- Run the `_handle_input` loop from a given `processed` count until the
batch completes, an action fails, or a positive `wait` suspends. -/
def runActions (env : Env) : Nat → List GVal → List IEvent × StepRes
  | processed, [] => ([], .done (.success processed))
  | processed, a :: rest =>
    match classifyAction env a with
    | .ok evs =>
      let r := runActions env (processed + 1) rest
      (evs ++ r.1, r.2)
    | .okWaitPos => ([], .suspended processed rest)
    | .fail k evs => (evs, .done (.errorWithCount (formatErr processed k) processed))

/-- Resume the loop across `wait` suspensions until the batch resolves.
The fuel bounds the number of suspensions; `|actions|` always suffices
because every suspension consumes the `wait` action itself. -/
def runToCompletion (env : Env) : Nat → Nat → List GVal → List IEvent × Reply
  | fuel, processed, acts =>
    match runActions env processed acts, fuel with
    | (evs, .done r), _ => (evs, r)
    | (evs, .suspended _ _), 0 => (evs, .errorMsg "<fuel exhausted>")
    | (evs, .suspended p rest), f + 1 =>
      let r := runToCompletion env f (p + 1) rest
      (evs ++ r.1, r.2)

/-- `_handle_input` run to completion on a batch: all emitted events in
order, and the reply sent at the end. -/
def handleInputFull (env : Env) (acts : List GVal) : List IEvent × Reply :=
  runToCompletion env acts.length 0 acts

/-- Whether one action would succeed as an iteration of the loop body. -/
def actionOk (env : Env) (a : GVal) : Bool :=
  match classifyAction env a with
  | .fail _ _ => false
  | _ => true

/-! ## Listener dispatch and the single-flight flag (`_handle_json_command`) -/

/-- Listener state relevant to the `input` command: the
`_is_processing_input` flag and the in-flight batch suspended at a `wait`
(its pre-increment `processed` count and remaining actions). -/
structure ListenerState where
  isProcessingInput : Bool
  inflight : Option (Nat × List GVal)

/-- An event observed by the listener: an inbound `input` datagram, or the
resumption of a suspended batch at its `wait` timer. -/
inductive LEvent where
  | recvInput (actions : GVal)
  | advance

/-- Turn the outcome of a loop run into listener state and an optional
reply: completion clears the flag and replies; suspension keeps the flag
set with the batch recorded in flight. -/
def applyStepRes (evs : List IEvent) : StepRes → ListenerState × List IEvent × Option Reply
  | .done r => (⟨false, none⟩, evs, some r)
  | .suspended p rest => (⟨true, some (p, rest)⟩, evs, none)

/-- One step of the listener on an event, mirroring the `input` arm of
`_handle_json_command` (lines 48–59): array-shape check, emptiness check,
single-flight check, then `_handle_input` up to its first suspension.
`advance` resumes a suspended batch past its awaited `wait`. -/
def listenerStep (env : Env) (s : ListenerState) :
    LEvent → ListenerState × List IEvent × Option Reply
  | .recvInput v =>
    match v with
    | .varr acts =>
      if acts.isEmpty then (s, [], some (.errorMsg "actions array is empty"))
      else if s.isProcessingInput then
        (s, [], some (.errorMsg "Input sequence already in progress"))
      else
        let r := runActions env 0 acts
        applyStepRes r.1 r.2
    | _ => (s, [], some (.errorMsg "actions must be an array"))
  | .advance =>
    match s.inflight with
    | none => (s, [], none)
    | some (p, rest) =>
      let r := runActions env (p + 1) rest
      applyStepRes r.1 r.2

/-! ## Session Manager filesystem model (`GodotRunner`)

Paths are segment lists (`projectPath ++ [filename]` models
`join(projectPath, filename)`); the filesystem is an association list from
paths to contents, with directories tracked separately. -/

/-- A filesystem path, as the list of its segments. -/
abbrev FPath := List String

/-- File contents. -/
abbrev FContent := List Char

/-- `readFileSync` (`none` = the file does not exist / the read throws). -/
def fsRead : List (FPath × FContent) → FPath → Option FContent
  | [], _ => none
  | (k, v) :: rest, p => if k = p then some v else fsRead rest p

/-- `existsSync` on a file. -/
def fsExists (fs : List (FPath × FContent)) (p : FPath) : Bool := (fsRead fs p).isSome

/-- `unlinkSync` (no-op when absent; callers guard with `existsSync`). -/
def fsErase (p : FPath) (fs : List (FPath × FContent)) : List (FPath × FContent) :=
  fs.filter (fun e => e.fst ≠ p)

/-- `writeFileSync` / `copyFileSync` target update. -/
def fsWrite (fs : List (FPath × FContent)) (p : FPath) (v : FContent) :
    List (FPath × FContent) :=
  (p, v) :: fsErase p fs

/-- The session manager's state: files, directories, the
`injectedProjects` set, `activeProjectPath`, and whether an
`activeProcess` is tracked. -/
structure ServerState where
  files : List (FPath × FContent)
  dirs : List FPath
  injected : List FPath
  activeRoot : Option FPath
  processActive : Bool
deriving DecidableEq

/-- `join(projectPath, 'project.godot')`. -/
def projectFilePath (root : FPath) : FPath := root ++ ["project.godot"]

/-- `join(projectPath, scriptFilename)`. -/
def scriptFilePath (root : FPath) (filename : String) : FPath := root ++ [filename]

/-- `join(projectPath, scriptFilename + '.uid')`. -/
def uidFilePath (root : FPath) (filename : String) : FPath := root ++ [filename ++ ".uid"]

/-- `join(projectPath, '.mcp')`. -/
def mcpDirPath (root : FPath) : FPath := root ++ [".mcp"]

/-- `join(mcpDir, '.gdignore')`. -/
def gdignorePath (root : FPath) : FPath := root ++ [".mcp", ".gdignore"]

/-- `join(projectPath, '.gitignore')`. -/
def gitignorePath (root : FPath) : FPath := root ++ [".gitignore"]

/-- The autoload line `` `${entryName}="*res://${scriptFilename}"` ``. -/
def autoloadEntryChars (entryName scriptFilename : String) : FContent :=
  chars entryName ++ chars "=\"*res://" ++ chars scriptFilename ++ chars "\""

/-- The bridge's autoload line `McpBridge="*res://mcp_bridge.gd"`. -/
def mcpBridgeEntryChars : FContent := autoloadEntryChars "McpBridge" "mcp_bridge.gd"

/-- Stands for the bytes of the packaged `scripts/mcp_bridge.gd` copied by
`copyFileSync`; its exact contents are never inspected by the runner. -/
def bridgeScriptContent : FContent := chars "extends Node"

/-! ### The four regular-expression operations of the runner

`removeAutoloadEntry` and `injectBridgeAutoload` use four concrete regex
operations; each is implemented below as a left-to-right scanner with the
exact semantics of the JS regex involved.  The scanners take explicit fuel
consumed one unit per position; the wrappers pass the content length,
which always suffices since every step consumes at least one character. -/

/-- Global replace of `` `\n?<entry>` `` by the empty string
(`removeAutoloadEntry`, first `content.replace`): at each position try the
newline-prefixed match first (greedy `\n?`), else the bare entry, else
emit one character. -/
def scanRemoveNlPat (pat : FContent) : Nat → FContent → FContent
  | _, [] => []
  | 0, cs => cs
  | fuel + 1, c :: cs =>
    if ('\n' :: pat).isPrefixOf (c :: cs) then
      scanRemoveNlPat pat fuel (List.drop ('\n' :: pat).length (c :: cs))
    else if pat.isPrefixOf (c :: cs) then
      scanRemoveNlPat pat fuel (List.drop pat.length (c :: cs))
    else c :: scanRemoveNlPat pat fuel cs

/-- The lookahead `(?=\n\[|\n*$)` of the autoload-section cleanup regex:
the rest must start with `"\n["` or consist solely of newlines. -/
def lookaheadOk (cs : FContent) : Bool :=
  (chars "\n[").isPrefixOf cs || cs.all (fun c => c = '\n')

/-- Greedy `\s*` with backtracking until `(?=\n\[|\n*$)` holds: returns the
suffix left after the matched whitespace, or `none` if no stop position
satisfies the lookahead. -/
def greedyStop2 : FContent → Option FContent
  | [] => some []
  | c :: cs =>
    if isJsWs c then
      match greedyStop2 cs with
      | some r => some r
      | none => if lookaheadOk (c :: cs) then some (c :: cs) else none
    else if lookaheadOk (c :: cs) then some (c :: cs) else none

/-- Global removal of `` `\[autoload\]\s*(?=\n\[|\n*$)` ``
(`removeAutoloadEntry`, second `content.replace`). -/
def scanRemoveHeaders : Nat → FContent → FContent
  | _, [] => []
  | 0, cs => cs
  | fuel + 1, c :: cs =>
    if (chars "[autoload]").isPrefixOf (c :: cs) then
      match greedyStop2 (List.drop (chars "[autoload]").length (c :: cs)) with
      | some rest => scanRemoveHeaders fuel rest
      | none => c :: scanRemoveHeaders fuel cs
    else c :: scanRemoveHeaders fuel cs

/-- Greedy multiline `\s*$`: consume whitespace, backtracking to the last
position that ends a line (followed by `'\n'` or end of string). -/
def greedyStopM : FContent → Option FContent
  | [] => some []
  | c :: cs =>
    if isJsWs c then
      match greedyStopM cs with
      | some r => some r
      | none => if c = '\n' then some (c :: cs) else none
    else if c = '\n' then some (c :: cs) else none

/-- Test of `` `^\[autoload\]\s*$` `` with the `m` flag
(`autoloadSectionRegex.test(content)`): a line-start occurrence of
`[autoload]` whose remainder of line is whitespace. -/
def testAutoloadHeaderM : Nat → Bool → FContent → Bool
  | _, _, [] => false
  | 0, _, _ => false
  | fuel + 1, atLineStart, c :: cs =>
    if atLineStart && (chars "[autoload]").isPrefixOf (c :: cs) &&
        (greedyStopM (List.drop (chars "[autoload]").length (c :: cs))).isSome then
      true
    else testAutoloadHeaderM fuel (c = '\n') cs

/-- First-match replacement of `` `^\[autoload\]\s*$` `` (m flag) by
`` `[autoload]\n<entry>` `` (`content.replace(autoloadSectionRegex, ...)`). -/
def replaceAutoloadHeaderM (entry : FContent) : Nat → Bool → FContent → FContent
  | _, _, [] => []
  | 0, _, cs => cs
  | fuel + 1, atLineStart, c :: cs =>
    if atLineStart && (chars "[autoload]").isPrefixOf (c :: cs) then
      match greedyStopM (List.drop (chars "[autoload]").length (c :: cs)) with
      | some rest => chars "[autoload]" ++ '\n' :: entry ++ rest
      | none => c :: replaceAutoloadHeaderM entry fuel (c = '\n') cs
    else c :: replaceAutoloadHeaderM entry fuel (c = '\n') cs

/-- Wrapper instantiating the fuel with the content length. -/
def jsRemoveNlEntryAll (content entry : FContent) : FContent :=
  scanRemoveNlPat entry content.length content

/-- Wrapper instantiating the fuel with the content length. -/
def jsRemoveAutoloadHeaders (content : FContent) : FContent :=
  scanRemoveHeaders content.length content

/-- Wrapper instantiating the fuel with the content length. -/
def jsTestAutoloadHeader (content : FContent) : Bool :=
  testAutoloadHeaderM content.length true content

/-- Wrapper instantiating the fuel with the content length. -/
def jsReplaceAutoloadHeader (content entry : FContent) : FContent :=
  replaceAutoloadHeaderM entry content.length true content

/-! ### `removeAutoloadEntry`, `injectBridgeAutoload`, `cleanupBridgeAutoload`, `runProject` -/

/-- `if (existsSync(file)) unlinkSync(file)`. -/
def unlinkIfExists (k : FPath) (fs : List (FPath × FContent)) : List (FPath × FContent) :=
  if fsExists fs k then fsErase k fs else fs

/-- The new `project.godot` content after stripping an autoload entry:
both global regex replacements, then `trimEnd() + '\n'`. -/
def strippedConfig (content entry : FContent) : FContent :=
  trimEndJs (jsRemoveAutoloadHeaders (jsRemoveNlEntryAll content entry)) ++ ['\n']

/-- `GodotRunner.removeAutoloadEntry(projectPath, entryName, scriptFilename)`:
strip the entry line and emptied `[autoload]` headers from `project.godot`
(only when the entry is present), then delete the copied script and its
`.uid` (only when present).  Every block is try/caught in the source, so
the operation is total. -/
def removeAutoloadEntry (root : FPath) (entryName scriptFilename : String)
    (fs : List (FPath × FContent)) : List (FPath × FContent) :=
  unlinkIfExists (uidFilePath root scriptFilename)
    (unlinkIfExists (scriptFilePath root scriptFilename)
      (match fsRead fs (projectFilePath root) with
       | some content =>
         if listIncl content (autoloadEntryChars entryName scriptFilename) then
           fsWrite fs (projectFilePath root)
             (strippedConfig content (autoloadEntryChars entryName scriptFilename))
         else fs
       | none => fs))

/-- `mkdirSync(mcpDir)` guarded by `existsSync`. -/
def injectDirs (root : FPath) (dirs : List FPath) : List FPath :=
  if mcpDirPath root ∈ dirs then dirs else mcpDirPath root :: dirs

/-- Create `.mcp/.gdignore` when missing. -/
def ensureGdignore (root : FPath) (fs : List (FPath × FContent)) : List (FPath × FContent) :=
  if fsExists fs (gdignorePath root) then fs
  else fsWrite fs (gdignorePath root) []

/-- Ensure `.gitignore` lists `.mcp/` (append or create). -/
def ensureGitignore (root : FPath) (fs : List (FPath × FContent)) : List (FPath × FContent) :=
  match fsRead fs (gitignorePath root) with
  | some g =>
    if listIncl g (chars ".mcp/") then fs
    else
      let nl : FContent := if g.getLast? = some '\n' then [] else ['\n']
      fsWrite fs (gitignorePath root) (g ++ nl ++ chars ".mcp/" ++ ['\n'])
  | none => fsWrite fs (gitignorePath root) (chars ".mcp/" ++ ['\n'])

/-- The file effects of `injectBridgeAutoload` before `project.godot` is
read: `.gdignore`, `.gitignore`, legacy screenshot-server cleanup, bridge
script copy. -/
def injectPreFiles (root : FPath) (fs : List (FPath × FContent)) : List (FPath × FContent) :=
  fsWrite
    (removeAutoloadEntry root "McpScreenshotServer" "mcp_screenshot_server.gd"
      (ensureGitignore root (ensureGdignore root fs)))
    (scriptFilePath root "mcp_bridge.gd") bridgeScriptContent

/-- `GodotRunner.injectBridgeAutoload(projectPath)`: skip when already
injected; ensure `.mcp/` with `.gdignore`; ensure `.mcp/` is gitignored;
clean the legacy screenshot-server autoload; copy the bridge script; then
register the autoload entry in `project.godot` (no-op when already
present, otherwise into the `[autoload]` section or appended).  When
`project.godot` cannot be read the source throws after the earlier side
effects and before registering the root as injected; callers catch. -/
def injectBridgeAutoload (root : FPath) (s : ServerState) : ServerState :=
  if root ∈ s.injected then s
  else
    let dirs1 := injectDirs root s.dirs
    let f4 := injectPreFiles root s.files
    match fsRead f4 (projectFilePath root) with
    | none => { s with files := f4, dirs := dirs1 }
    | some content =>
      if listIncl content mcpBridgeEntryChars then
        { s with files := f4, dirs := dirs1, injected := root :: s.injected }
      else
        let content2 :=
          if jsTestAutoloadHeader content then
            jsReplaceAutoloadHeader content mcpBridgeEntryChars
          else
            trimEndJs content ++ chars "\n\n[autoload]\n" ++ mcpBridgeEntryChars ++ ['\n']
        { s with files := fsWrite f4 (projectFilePath root) content2,
                 dirs := dirs1, injected := root :: s.injected }

/-- `GodotRunner.cleanupBridgeAutoload(projectPath)`: remove the bridge
autoload entry and artifacts, and drop the root from `injectedProjects`. -/
def cleanupBridgeAutoload (root : FPath) (s : ServerState) : ServerState :=
  { s with files := removeAutoloadEntry root "McpBridge" "mcp_bridge.gd" s.files,
           injected := s.injected.filter (fun r => r ≠ root) }

/-- `GodotRunner.runProject(projectPath)` state effects: kill any active
process (cleaning the previous root's autoload when switching roots),
inject the bridge (failures caught), record the active root, spawn. -/
def runProject (root : FPath) (s : ServerState) : ServerState :=
  let s1 :=
    if s.processActive then
      match s.activeRoot with
      | some old => if old ≠ root then cleanupBridgeAutoload old s else s
      | none => s
    else s
  let s2 := injectBridgeAutoload root s1
  { s2 with activeRoot := some root, processActive := true }

/-! ## Bridge Client (`GodotRunner.sendCommand`) -/

/-- An asynchronous event that can reach one `sendCommand` call's
callbacks: an inbound datagram, a socket error, the timeout timer firing,
or the send callback (with its optional error). -/
inductive SCEvent where
  | message (reply : String)
  | udpError (msg : String)
  | timeoutFire
  | sendCallback (err : Option String)
deriving DecidableEq

/-- How one `sendCommand` call settles. -/
inductive SCOutcome where
  | resolved (reply : String)
  | rejectedUdp (msg : String)
  | rejectedTimeout
  | rejectedSend (msg : String)
deriving DecidableEq

/-- The per-call state: the `settled` flag, whether the per-call socket is
still open, whether the timer is still pending, and the recorded outcome. -/
structure SCState where
  settled : Bool
  socketOpen : Bool
  timerActive : Bool
  outcome : Option SCOutcome
deriving DecidableEq

/-- State at the start of a `sendCommand` call. -/
def scInit : SCState := ⟨false, true, true, none⟩

/-- One callback invocation, mirroring lines 680–715 of the runner: each
handler is guarded by `settled`, and the settling handler clears the
timer, closes the socket and records the outcome. -/
def scStep (s : SCState) : SCEvent → SCState
  | .message reply =>
    if !s.settled then ⟨true, false, false, some (.resolved reply)⟩ else s
  | .udpError m =>
    if !s.settled then ⟨true, false, false, some (.rejectedUdp m)⟩ else s
  | .timeoutFire =>
    if s.timerActive && !s.settled then ⟨true, false, false, some .rejectedTimeout⟩
    else { s with timerActive := false }
  | .sendCallback err =>
    match err with
    | some m => if !s.settled then ⟨true, false, false, some (.rejectedSend m)⟩ else s
    | none => s

/-- Run a `sendCommand` call over a sequence of callback events. -/
def scRun (evs : List SCEvent) : SCState := evs.foldl scStep scInit

/-- Whether an event settles the call when it is the first to arrive. -/
def isSettling : SCEvent → Bool
  | .message _ => true
  | .udpError _ => true
  | .timeoutFire => true
  | .sendCallback (some _) => true
  | .sendCallback none => false

/-- The outcome a settling event produces. -/
def outcomeOf : SCEvent → SCOutcome
  | .message reply => .resolved reply
  | .udpError m => .rejectedUdp m
  | .timeoutFire => .rejectedTimeout
  | .sendCallback (some m) => .rejectedSend m
  | .sendCallback none => .rejectedTimeout

/-! ## Path validation and the scene tool handler -/

/-- `validatePath(path)`: `false` for a falsy (empty) path or one
containing `".."`, otherwise `true`. -/
def validatePath (path : String) : Bool :=
  if path = "" || strIncludes path ".." then false else true

/-- JS truthiness of an optional string argument. -/
def truthyS : Option String → Bool
  | none => false
  | some s => s ≠ ""

/-- The arguments of `manage_scene` after `normalizeParameters`. -/
structure SceneArgs where
  operation : Option String
  projectPath : Option String
  scenePath : Option String
  rootNodeType : Option String
  nodeType : Option String
  nodeName : Option String
  parentNodePath : Option String
  hasProperties : Bool
  nodePath : Option String
  texturePath : Option String
  newPath : Option String
  outputPath : Option String
  hasMeshItemNames : Bool
deriving DecidableEq

/-- `existsSync` oracle for the handler's filesystem probes (keyed by the
joined string path). -/
structure FsProbe where
  fileExists : String → Bool

/-- String-level `join(a, b)` as used by the handler. -/
def joinS (a b : String) : String := a ++ "/" ++ b

/-- What the handler does with a request: reject it with an error response
before any process action, or hand an operation to `executeOperation`
(the process/transport action) for the given project. -/
inductive SceneOutcome where
  | reject (msg : String)
  | execute (operation : String) (projectPath : String)
deriving DecidableEq

/-- Whether the outcome reaches `executeOperation`. -/
def SceneOutcome.isExecute : SceneOutcome → Bool
  | .execute _ _ => true
  | .reject _ => false

/-- `handleManageScene`, modelled up to the `executeOperation` boundary:
argument presence checks, `validatePath` checks, project/scene existence
probes, then per-operation dispatch with its extra checks. -/
def handleManageScene (env : FsProbe) (args : SceneArgs) : SceneOutcome :=
  if !truthyS args.operation then .reject "operation is required"
  else
    let operation := (args.operation).getD ""
    if !truthyS args.projectPath || !truthyS args.scenePath then
      .reject "projectPath and scenePath are required"
    else
      let projectPath := (args.projectPath).getD ""
      let scenePath := (args.scenePath).getD ""
      if !validatePath projectPath || !validatePath scenePath then .reject "Invalid path"
      else if !env.fileExists (joinS projectPath "project.godot") then
        .reject ("Not a valid Godot project: " ++ projectPath)
      else if operation ≠ "create" && !env.fileExists (joinS projectPath scenePath) then
        .reject ("Scene file does not exist: " ++ scenePath)
      else
        match operation with
        | "create" => .execute "create_scene" projectPath
        | "add_node" =>
          if !truthyS args.nodeType || !truthyS args.nodeName then
            .reject "nodeType and nodeName are required for add_node"
          else .execute "add_node" projectPath
        | "load_sprite" =>
          if !truthyS args.nodePath || !truthyS args.texturePath then
            .reject "nodePath and texturePath are required for load_sprite"
          else if !validatePath ((args.nodePath).getD "") ||
              !validatePath ((args.texturePath).getD "") then
            .reject "Invalid path"
          else if !env.fileExists (joinS projectPath ((args.texturePath).getD "")) then
            .reject ("Texture file does not exist: " ++ (args.texturePath).getD "")
          else .execute "load_sprite" projectPath
        | "save" =>
          if truthyS args.newPath && !validatePath ((args.newPath).getD "") then
            .reject "Invalid new path"
          else .execute "save_scene" projectPath
        | "export_mesh_library" =>
          if !truthyS args.outputPath then
            .reject "outputPath is required for export_mesh_library"
          else if !validatePath ((args.outputPath).getD "") then
            .reject "Invalid output path"
          else .execute "export_mesh_library" projectPath
        | _ => .reject ("Unknown operation: " ++ operation)

/-! ## Generic lemmas about the filesystem model -/

theorem fsRead_write_same (fs : List (FPath × FContent)) (k : FPath) (v : FContent) :
    fsRead (fsWrite fs k v) k = some v := by
  simp [fsWrite, fsRead]

theorem fsRead_erase (fs : List (FPath × FContent)) (k p : FPath) :
    fsRead (fsErase k fs) p = if p = k then none else fsRead fs p := by
  induction fs with
  | nil => by_cases hp : p = k <;> simp [fsErase, fsRead, hp]
  | cons e rest ih =>
    obtain ⟨ek, ev⟩ := e
    by_cases he : ek = k
    · have h1 : fsErase k ((ek, ev) :: rest) = fsErase k rest := by
        simp [fsErase, he]
      by_cases hp : p = k
      · rw [h1, ih]; simp [hp]
      · have hep : ¬ ek = p := fun hc => hp (hc.symm.trans he)
        rw [h1, ih]; simp [hp, fsRead, hep]
    · have h1 : fsErase k ((ek, ev) :: rest) = (ek, ev) :: fsErase k rest := by
        simp [fsErase, he]
      rw [h1]
      by_cases hep : ek = p
      · have hp : ¬ p = k := fun hc => he (hep.trans hc)
        simp [fsRead, hep, hp]
      · simp only [fsRead, hep, if_neg hep]
        rw [ih]
        by_cases hp : p = k <;> simp [hp]

theorem fsRead_write_ne (fs : List (FPath × FContent)) (k p : FPath) (v : FContent)
    (h : p ≠ k) : fsRead (fsWrite fs k v) p = fsRead fs p := by
  have hk : ¬ k = p := fun hc => h hc.symm
  simp [fsWrite, fsRead, hk, fsRead_erase, h]

theorem fsErase_erase (fs : List (FPath × FContent)) (k : FPath) :
    fsErase k (fsErase k fs) = fsErase k fs := by
  simp [fsErase, List.filter_filter]

theorem fsWrite_write_same (fs : List (FPath × FContent)) (k : FPath) (v : FContent) :
    fsWrite (fsWrite fs k v) k v = fsWrite fs k v := by
  have h1 : fsErase k (fsWrite fs k v) = fsErase k fs := by
    simp [fsWrite, fsErase, List.filter_filter]
  simp [fsWrite, h1]
  simp [fsWrite] at h1
  exact h1

theorem fsExists_write_same (fs : List (FPath × FContent)) (k : FPath) (v : FContent) :
    fsExists (fsWrite fs k v) k = true := by
  simp [fsExists, fsRead_write_same]

theorem fsExists_write_ne (fs : List (FPath × FContent)) (k p : FPath) (v : FContent)
    (h : p ≠ k) : fsExists (fsWrite fs k v) p = fsExists fs p := by
  simp [fsExists, fsRead_write_ne fs k p v h]

theorem fsExists_erase_same (fs : List (FPath × FContent)) (k : FPath) :
    fsExists (fsErase k fs) k = false := by
  simp [fsExists, fsRead_erase]

theorem fsRead_erase_ne (fs : List (FPath × FContent)) (k p : FPath) (h : p ≠ k) :
    fsRead (fsErase k fs) p = fsRead fs p := by
  simp [fsRead_erase, h]

/-- Keys under the same root with different relative parts differ. -/
theorem rootKey_ne {r : FPath} {l₁ l₂ : List String} (h : l₁ ≠ l₂) : r ++ l₁ ≠ r ++ l₂ :=
  fun he => h (List.append_cancel_left he)

/-- Keys under two roots, neither a path-prefix of the other, differ. -/
theorem rootsKey_ne {p q : FPath} (hpq : ¬ p <+: q) (hqp : ¬ q <+: p)
    (xs ys : List String) : p ++ xs ≠ q ++ ys := by
  intro he
  rcases le_total p.length q.length with hle | hle
  · apply hpq
    have : (p ++ xs).take p.length = (q ++ ys).take p.length := by rw [he]
    rw [List.take_append_of_le_length (le_refl _), List.take_append_of_le_length hle,
      List.take_length] at this
    exact this ▸ List.take_prefix _ _
  · apply hqp
    have : (p ++ xs).take q.length = (q ++ ys).take q.length := by rw [he]
    rw [List.take_append_of_le_length hle, List.take_append_of_le_length (le_refl _),
      List.take_length] at this
    exact this.symm ▸ List.take_prefix _ _

/-! ## Claim C10: path validation -/

/-- C10.  `validatePath` accepts a path exactly when it is non-empty and
free of the substring `".."` (so absolute paths and any other characters
pass), and a `manage_scene` request whose `projectPath` or `scenePath`
fails the predicate is rejected before any process or transport action
(`executeOperation` is never reached). -/
theorem c10_validatePath_guard :
    (∀ p : String, validatePath p = true ↔ (p ≠ "" ∧ strIncludes p ".." = false)) ∧
    (∀ (env : FsProbe) (args : SceneArgs) (p : String),
      (args.projectPath = some p ∨ args.scenePath = some p) → validatePath p = false →
      (handleManageScene env args).isExecute = false) := by
  constructor
  · intro p
    unfold validatePath
    by_cases h1 : p = "" <;> by_cases h2 : strIncludes p ".." <;> simp [h1, h2]
  · intro env args p hor hval
    unfold handleManageScene
    by_cases hop : truthyS args.operation
    swap
    · simp [hop, SceneOutcome.isExecute]
    by_cases htr : (!truthyS args.projectPath || !truthyS args.scenePath) = true
    · simp [hop, htr, SceneOutcome.isExecute]
    · have hb : (!truthyS args.projectPath || !truthyS args.scenePath) = false := by
        simpa using htr
      have hv3 : (!validatePath ((args.projectPath).getD "") ||
          !validatePath ((args.scenePath).getD "")) = true := by
        rcases hor with hpp | hsp
        · rw [hpp]; simp [hval]
        · rw [hsp]; simp [hval]
      simp [hop, hb, hv3, SceneOutcome.isExecute]

/-- Concrete filesystem probe for the C10 witness. -/
def c10Probe : FsProbe := ⟨fun _ => true⟩

/-- Concrete `manage_scene` arguments carrying a traversal path. -/
def c10Args : SceneArgs :=
  { operation := some "create", projectPath := some "../evil", scenePath := some "s.tscn",
    rootNodeType := none, nodeType := none, nodeName := none, parentNodePath := none,
    hasProperties := false, nodePath := none, texturePath := none, newPath := none,
    outputPath := none, hasMeshItemNames := false }

/-- Witness for C10: `"../evil"` fails `validatePath`, and the request
carrying it never reaches `executeOperation`. -/
theorem c10_witness :
    validatePath "/abs/path" = true ∧ validatePath "../evil" = false ∧
    (handleManageScene c10Probe c10Args).isExecute = false := by
  refine ⟨?_, ?_, ?_⟩
  · exact (c10_validatePath_guard.1 "/abs/path").2 (by decide)
  · decide
  · exact c10_validatePath_guard.2 c10Probe c10Args "../evil" (Or.inl rfl) (by decide)

/-! ## Claim C9: `sendCommand` settles exactly once and closes its socket -/

theorem scStep_settled (s : SCState) (e : SCEvent) (h : s.settled = true) :
    (scStep s e).settled = true ∧ (scStep s e).socketOpen = s.socketOpen ∧
    (scStep s e).outcome = s.outcome := by
  cases e with
  | message r => simp [scStep, h]
  | udpError m => simp [scStep, h]
  | timeoutFire => simp [scStep, h]
  | sendCallback err => cases err <;> simp [scStep, h]

theorem scFold_settled (s : SCState) (evs : List SCEvent) (h : s.settled = true) :
    (evs.foldl scStep s).settled = true ∧ (evs.foldl scStep s).socketOpen = s.socketOpen ∧
    (evs.foldl scStep s).outcome = s.outcome := by
  induction evs generalizing s with
  | nil => exact ⟨h, rfl, rfl⟩
  | cons e rest ih =>
    obtain ⟨h1, h2, h3⟩ := scStep_settled s e h
    obtain ⟨g1, g2, g3⟩ := ih (scStep s e) h1
    exact ⟨g1, g2.trans h2, g3.trans h3⟩

/-- C9.  For every sequence of callback events reaching one `sendCommand`
call, the call's outcome is exactly the one of the first settling event
(reply, UDP error, timeout, or send failure) — later events have no
effect — and the per-call socket is closed precisely when the call has
settled. -/
theorem c9_sendCommand_settles_once (evs : List SCEvent) :
    (scRun evs).outcome = (evs.find? isSettling).map outcomeOf ∧
    (scRun evs).settled = evs.any isSettling ∧
    (scRun evs).socketOpen = !evs.any isSettling := by
  induction evs with
  | nil => simp [scRun, scInit]
  | cons e rest ih =>
    by_cases hs : isSettling e = true
    · have hstep : (scStep scInit e).settled = true ∧ (scStep scInit e).socketOpen = false ∧
          (scStep scInit e).outcome = some (outcomeOf e) := by
        cases e with
        | message r => simp [scStep, scInit, outcomeOf]
        | udpError m => simp [scStep, scInit, outcomeOf]
        | timeoutFire => simp [scStep, scInit, outcomeOf]
        | sendCallback err =>
          cases err with
          | none => simp [isSettling] at hs
          | some m => simp [scStep, scInit, outcomeOf]
      obtain ⟨h1, h2, h3⟩ := hstep
      obtain ⟨g1, g2, g3⟩ := scFold_settled (scStep scInit e) rest h1
      refine ⟨?_, ?_, ?_⟩
      · show (rest.foldl scStep (scStep scInit e)).outcome = _
        rw [g3, h3, List.find?_cons_of_pos _ hs]
        rfl
      · show (rest.foldl scStep (scStep scInit e)).settled = _
        rw [g1]; simp [hs]
      · show (rest.foldl scStep (scStep scInit e)).socketOpen = _
        rw [g2, h2]; simp [hs]
    · have hnone : scStep scInit e = scInit := by
        cases e with
        | message r => simp [isSettling] at hs
        | udpError m => simp [isSettling] at hs
        | timeoutFire => simp [isSettling] at hs
        | sendCallback err =>
          cases err with
          | none => simp [scStep, scInit]
          | some m => simp [isSettling] at hs
      have hsf : isSettling e = false := by simpa using hs
      refine ⟨?_, ?_, ?_⟩
      · show (rest.foldl scStep (scStep scInit e)).outcome = _
        rw [hnone, List.find?_cons_of_neg _ (by simp [hsf])]
        exact ih.1
      · show (rest.foldl scStep (scStep scInit e)).settled = _
        rw [hnone]; simp [hsf]; exact ih.2.1
      · show (rest.foldl scStep (scStep scInit e)).socketOpen = _
        rw [hnone]; simp [hsf]; exact ih.2.2

/-! ## Claim C5: unresolvable `click_element` fails without emitting events -/

/-- C5.  For every environment and every `click_element` action whose
identifier resolves to no `Control` (by absolute path, root-relative path,
or breadth-first exact-name search), the injection returns the
"Could not find UI element" error and emits no input event at all. -/
theorem c5_click_not_found (env : Env) (d : List (String × GVal)) (id : String)
    (hid : asStr (dictGet d "element" (.vstr "")) = id) (hne : id ≠ "")
    (hfind : findControlByIdentifier env.root id = none) :
    injectClickElement env d = ("Could not find UI element: " ++ id, []) := by
  unfold injectClickElement
  rw [hid]
  simp [hne, hfind]

/-- A small concrete tree: a root window with a visible `Panel` control. -/
def c5Tree : GNode :=
  .mk ⟨"root", "Window", ["Window", "Viewport", "Node"], "/root", true,
        ⟨0, 0, 640, 480⟩, "", "", false, ""⟩
    [.mk ⟨"Panel", "Panel", ["Panel", "Control", "Node"], "/root/Panel", true,
            ⟨0, 0, 100, 100⟩, "", "", false, ""⟩ []]

/-- Concrete environment shared by the listener witnesses: no key names
resolve, and the live tree is `c5Tree`. -/
def simpleEnv : Env := ⟨fun _ => 0, c5Tree⟩

/-- Witness for C5 at a concrete tree and identifier. -/
theorem c5_witness :
    injectClickElement simpleEnv [("element", .vstr "Ghost")] =
      ("Could not find UI element: Ghost", []) :=
  c5_click_not_found simpleEnv [("element", .vstr "Ghost")] "Ghost" rfl (by decide) (by rfl)

/-! ## Claim C2: the single-flight flag -/

/-- C2 (amended).  A non-empty, array-shaped input batch submitted while
the single-flight flag is set is rejected with the explicit
"Input sequence already in progress" error, no event of the new batch is
injected and the listener state is unchanged; and across every listener
step the flag equals "a batch is in flight", so it is set exactly for the
duration of one batch and cleared when that batch finishes. -/
theorem c2_single_flight (env : Env) :
    (∀ (s : ListenerState) (acts : List GVal), acts ≠ [] → s.isProcessingInput = true →
      listenerStep env s (.recvInput (.varr acts)) =
        (s, [], some (.errorMsg "Input sequence already in progress"))) ∧
    (∀ (s : ListenerState) (e : LEvent), s.isProcessingInput = s.inflight.isSome →
      (listenerStep env s e).1.isProcessingInput = (listenerStep env s e).1.inflight.isSome) := by
  constructor
  · intro s acts hne hflag
    have : acts.isEmpty = false := by simpa [List.isEmpty_iff] using hne
    simp [listenerStep, this, hflag]
  · intro s e hinv
    cases e with
    | recvInput v =>
      cases v with
      | varr acts =>
        by_cases hemp : acts.isEmpty
        · simp [listenerStep, hemp, hinv]
        · by_cases hflag : s.isProcessingInput
          · have h2 : s.inflight.isSome = true := by rw [← hinv]; exact hflag
            simp [listenerStep, hemp, hflag, h2]
          · cases hr : (runActions env 0 acts).2 with
            | done r => simp [listenerStep, hemp, hflag, applyStepRes, hr]
            | suspended p rest => simp [listenerStep, hemp, hflag, applyStepRes, hr]
      | vnull => simp [listenerStep, hinv]
      | vbool b => simp [listenerStep, hinv]
      | vint n => simp [listenerStep, hinv]
      | vfloat q => simp [listenerStep, hinv]
      | vstr str => simp [listenerStep, hinv]
      | vdict entries => simp [listenerStep, hinv]
    | advance =>
      cases hin : s.inflight with
      | none => simp [listenerStep, hin, hinv, hin ▸ hinv]
      | some pr =>
        obtain ⟨p, rest⟩ := pr
        cases hr : (runActions env (p + 1) rest).2 with
        | done r => simp [listenerStep, hin, applyStepRes, hr]
        | suspended q rest2 => simp [listenerStep, hin, applyStepRes, hr]

/-- A batch of two positive waits: submitting it suspends the listener
with the flag set. -/
def c2Batch : List GVal :=
  [.vdict [("type", .vstr "wait"), ("ms", .vfloat 50)],
   .vdict [("type", .vstr "wait"), ("ms", .vfloat 50)]]

/-- The (reachable) listener state right after accepting `c2Batch`:
suspended at the first `wait`, flag set. -/
def c2S1 : ListenerState :=
  (listenerStep simpleEnv ⟨false, none⟩ (.recvInput (.varr c2Batch))).1

/-- Counterexample for C2 as stated: in the reachable in-flight state
`c2S1` (flag set), an empty input batch is answered with the
"actions array is empty" shape error, not with the "already in progress"
error, because the array/emptiness checks precede the single-flight
check. -/
theorem c2_counterexample :
    c2S1.isProcessingInput = true ∧
    (listenerStep simpleEnv c2S1 (.recvInput (.varr []))).2.2 =
      some (.errorMsg "actions array is empty") ∧
    (listenerStep simpleEnv c2S1 (.recvInput (.varr []))).2.2 ≠
      some (.errorMsg "Input sequence already in progress") := by
  refine ⟨rfl, rfl, by decide⟩

/-- Witness for the amended C2: rejection of a concrete non-empty second
batch in the reachable in-flight state `c2S1`. -/
theorem c2_witness :
    listenerStep simpleEnv c2S1 (.recvInput (.varr [.vdict [("type", .vstr "ping")]])) =
      (c2S1, [], some (.errorMsg "Input sequence already in progress")) :=
  (c2_single_flight simpleEnv).1 c2S1 [.vdict [("type", .vstr "ping")]]
    (List.cons_ne_nil _ _) rfl

/-! ## Claim C1: `actions_processed` bookkeeping -/

/-- Reference run of the `_handle_input` loop that records only the
bookkeeping (awaiting a `wait` does not alter it): stop at the first
failing action with its count, otherwise count every action. -/
def runFlat (env : Env) : Nat → List GVal → Reply
  | processed, [] => .success processed
  | processed, a :: rest =>
    match classifyAction env a with
    | .fail k _ => .errorWithCount (formatErr processed k) processed
    | _ => runFlat env (processed + 1) rest

theorem runActions_bridge (env : Env) (acts : List GVal) : ∀ p,
    ((runActions env p acts).2 = .done (runFlat env p acts)) ∨
    (∃ q rest, (runActions env p acts).2 = .suspended q rest ∧
      rest.length < acts.length ∧ runFlat env (q + 1) rest = runFlat env p acts) := by
  induction acts with
  | nil => intro p; left; simp [runActions, runFlat]
  | cons a rest ih =>
    intro p
    cases hc : classifyAction env a with
    | ok evs =>
      rcases ih (p + 1) with h | ⟨q, r2, h1, h2, h3⟩
      · left; simp [runActions, runFlat, hc, h]
      · right
        refine ⟨q, r2, ?_, by simpa using Nat.lt_succ_of_lt h2, ?_⟩
        · simp [runActions, hc, h1]
        · rw [h3]; simp [runFlat, hc]
    | okWaitPos =>
      right
      refine ⟨p, rest, ?_, by simp, ?_⟩
      · simp [runActions, hc]
      · simp [runFlat, hc]
    | fail k evs =>
      left; simp [runActions, runFlat, hc]

theorem runToCompletion_flat (env : Env) : ∀ (fuel : Nat) (acts : List GVal) (p : Nat),
    acts.length ≤ fuel → (runToCompletion env fuel p acts).2 = runFlat env p acts := by
  intro fuel
  induction fuel with
  | zero =>
    intro acts p hle
    have : acts = [] := List.length_eq_zero.1 (Nat.le_zero.1 hle)
    subst this
    simp [runToCompletion, runActions, runFlat]
  | succ f ih =>
    intro acts p hle
    rcases hrb : runActions env p acts with ⟨evs, sr⟩
    rcases runActions_bridge env acts p with h | ⟨q, rest, h1, h2, h3⟩
    · rw [hrb] at h; simp only [] at h
      unfold runToCompletion
      rw [hrb, h]
    · rw [hrb] at h1; simp only [] at h1
      unfold runToCompletion
      rw [hrb, h1]
      have hrest : rest.length ≤ f := by omega
      simp only []
      rw [← h3]
      exact ih rest (q + 1) hrest

theorem runFlat_allok (env : Env) (acts : List GVal)
    (h : ∀ a ∈ acts, actionOk env a = true) :
    ∀ p, runFlat env p acts = .success (p + acts.length) := by
  induction acts with
  | nil => intro p; simp [runFlat]
  | cons a rest ih =>
    intro p
    have ha : actionOk env a = true := h a (List.mem_cons_self a rest)
    have hr : ∀ b ∈ rest, actionOk env b = true := fun b hb => h b (List.mem_cons_of_mem a hb)
    cases hc : classifyAction env a with
    | ok evs => rw [runFlat]; simp [hc]; rw [ih hr (p + 1)]; simp; omega
    | okWaitPos => rw [runFlat]; simp [hc]; rw [ih hr (p + 1)]; simp; omega
    | fail k evs => rw [actionOk, hc] at ha; simp at ha

theorem runFlat_fail (env : Env) (acts : List GVal)
    (h : ¬ ∀ a ∈ acts, actionOk env a = true) :
    ∀ p, ∃ m, runFlat env p acts =
      .errorWithCount m (p + acts.findIdx (fun a => !actionOk env a)) := by
  induction acts with
  | nil => exact absurd (by intro a ha; cases ha) h
  | cons a rest ih =>
    intro p
    by_cases ha : actionOk env a = true
    · have hrest : ¬ ∀ b ∈ rest, actionOk env b = true := by
        intro hall
        apply h
        intro b hb
        rcases List.mem_cons.1 hb with h1 | h2
        · exact h1 ▸ ha
        · exact hall b h2
      obtain ⟨m, hm⟩ := ih hrest (p + 1)
      refine ⟨m, ?_⟩
      have hfi : List.findIdx (fun a => !actionOk env a) (a :: rest) =
          List.findIdx (fun a => !actionOk env a) rest + 1 := by
        rw [List.findIdx_cons]; simp [ha]
      have hcl : ∀ k evs, classifyAction env a ≠ .fail k evs := by
        intro k evs hc; rw [actionOk, hc] at ha; simp at ha
      rw [runFlat]
      cases hc : classifyAction env a with
      | ok evs => simp [hc]; rw [hm, hfi]; congr 1; omega
      | okWaitPos => simp [hc]; rw [hm, hfi]; congr 1; omega
      | fail k evs => exact absurd hc (hcl k evs)
    · have hfk : ∃ k evs, classifyAction env a = .fail k evs := by
        rw [actionOk] at ha
        cases hc : classifyAction env a with
        | ok evs => rw [hc] at ha; simp at ha
        | okWaitPos => rw [hc] at ha; simp at ha
        | fail k evs => exact ⟨k, evs, rfl⟩
      obtain ⟨k, evs, hk⟩ := hfk
      have hfi : List.findIdx (fun a => !actionOk env a) (a :: rest) = 0 := by
        rw [List.findIdx_cons]; simp [ha]
      refine ⟨formatErr p k, ?_⟩
      rw [runFlat, hk, hfi]
      simp

/-- C1.  For every environment and batch, the completed `_handle_input`
run replies `{success, actions_processed = |batch|}` when every action
succeeds, and otherwise replies an error whose `actions_processed` equals
the index of the first failing action — the number of actions strictly
before it, each successful action having incremented the count exactly
once. -/
theorem c1_actions_processed (env : Env) (acts : List GVal) :
    ((∀ a ∈ acts, actionOk env a = true) →
      (handleInputFull env acts).2 = .success acts.length) ∧
    ((¬ ∀ a ∈ acts, actionOk env a = true) →
      ∃ m, (handleInputFull env acts).2 =
        .errorWithCount m (acts.findIdx (fun a => !actionOk env a))) := by
  constructor
  · intro hall
    rw [handleInputFull, runToCompletion_flat env acts.length acts 0 (le_refl _),
      runFlat_allok env acts hall 0]
    simp
  · intro hne
    obtain ⟨m, hm⟩ := runFlat_fail env acts hne 0
    exact ⟨m, by rw [handleInputFull,
      runToCompletion_flat env acts.length acts 0 (le_refl _)]; simpa using hm⟩

/-- Witness for C1: a concrete all-successful batch (motion then a
negative-coordinate click is irrelevant — motion and a numeric wait) and a
concrete failing batch. -/
theorem c1_witness :
    (handleInputFull simpleEnv
      [.vdict [("type", .vstr "mouse_motion"), ("x", .vint 5)],
       .vdict [("type", .vstr "wait"), ("ms", .vint 1)]]).2 = .success 2 ∧
    (∃ m, (handleInputFull simpleEnv
      [.vdict [("type", .vstr "mouse_motion")],
       .vdict [("type", .vstr "nonsense")]]).2 = .errorWithCount m 1) := by
  constructor
  · exact (c1_actions_processed simpleEnv _).1 (by decide)
  · have h := (c1_actions_processed simpleEnv
      [.vdict [("type", .vstr "mouse_motion")], .vdict [("type", .vstr "nonsense")]]).2
      (by decide)
    simpa using h

/-! ## Claim C7: the spec's `wait` + `BOGUS_KEY` example -/

/-- The `actions_processed` field of a reply, when present. -/
def replyProcessed : Reply → Option Nat
  | .success n => some n
  | .errorWithCount _ n => some n
  | .errorMsg _ => none

/-- The batch `[{type:"wait", ms:100}, {type:"key", key:"BOGUS_KEY"}]`
(JSON numbers parse as floats). -/
def c7Batch : List GVal :=
  [.vdict [("type", .vstr "wait"), ("ms", .vfloat 100)],
   .vdict [("type", .vstr "key"), ("key", .vstr "BOGUS_KEY")]]

/-- Counterexample for C7 as stated: on this batch the reply's error does
mention `BOGUS_KEY`, but `actions_processed` is `1`, not `0` — the `wait`
action succeeds and increments the count before the key fails. -/
theorem c7_counterexample :
    (handleInputFull simpleEnv c7Batch).2 =
      .errorWithCount "Action 1 (key): unrecognized key name: 'BOGUS_KEY'" 1 ∧
    replyProcessed (handleInputFull simpleEnv c7Batch).2 ≠ some 0 := by
  exact ⟨by decide, by decide⟩

/-- C7 (amended).  The batch `[{type:"wait", ms:100},
{type:"key", key:"BOGUS_KEY"}]` produces an error reply whose message
mentions `BOGUS_KEY` and whose `actions_processed` equals `1` (the
successful `wait` strictly before the failing key action). -/
theorem c7_amended :
    (handleInputFull simpleEnv c7Batch).2 =
      .errorWithCount "Action 1 (key): unrecognized key name: 'BOGUS_KEY'" 1 ∧
    strIncludes "Action 1 (key): unrecognized key name: 'BOGUS_KEY'" "BOGUS_KEY" = true := by
  exact ⟨by decide, by decide⟩

/-! ## Claim C8: `wait` duration validation -/

/-- A single-action batch whose `wait` has a negative duration. -/
def c8Batch : List GVal := [.vdict [("type", .vstr "wait"), ("ms", .vfloat (-5))]]

/-- Counterexample for C8 as stated: a `wait` whose `ms` is the negative
number `-5` is not a per-action failure — the batch succeeds with
`actions_processed = 1` (the code only requires `ms` to be a number; a
non-positive number merely skips the delay). -/
theorem c8_counterexample :
    (handleInputFull simpleEnv c8Batch).2 = .success 1 ∧
    replyProcessed (handleInputFull simpleEnv c8Batch).2 ≠ some 0 := by
  exact ⟨by decide, by decide⟩

/-- C8 (amended).  A `wait` action fails (stopping the batch at that
action, with the "ms must be a number" message) exactly when its `ms`
value is not a number; any numeric `ms` — including negative — succeeds,
and the batch only awaits when `ms > 0`. -/
theorem c8_amended (env : Env) (d : List (String × GVal)) (v : GVal)
    (ht : dictGet d "type" (.vstr "") = .vstr "wait")
    (hv : dictGet d "ms" (.vint 0) = v) :
    classifyAction env (.vdict d) =
      (if isNumberG v then (if numPos v then .okWaitPos else .ok [])
       else .fail (.typed "wait" "ms must be a number") []) := by
  show (match dictGet d "type" (.vstr "") with
    | .vstr "key" =>
      let r := injectKey env d
      if r.1 = "" then ActClass.ok r.2 else .fail (.typed "key" r.1) r.2
    | .vstr "mouse_button" =>
      let r := injectMouseButton d
      if r.1 = "" then ActClass.ok r.2 else .fail (.typed "mouse_button" r.1) r.2
    | .vstr "mouse_motion" => ActClass.ok (injectMouseMotion d)
    | .vstr "action" =>
      let r := injectAction d
      if r.1 = "" then ActClass.ok r.2 else .fail (.typed "action" r.1) r.2
    | .vstr "click_element" =>
      let r := injectClickElement env d
      if r.1 = "" then ActClass.ok r.2 else .fail (.typed "click_element" r.1) r.2
    | .vstr "wait" =>
      let ms := dictGet d "ms" (.vint 0)
      if isNumberG ms then (if numPos ms then .okWaitPos else .ok [])
      else .fail (.typed "wait" "ms must be a number") []
    | t => ActClass.fail (.unknownType (gvalStr t)) []) = _
  rw [ht]
  simp only []
  rw [hv]

/-- Witness for the amended C8 at concrete inputs: a boolean `ms` fails,
a negative numeric `ms` succeeds without awaiting. -/
theorem c8_witness :
    classifyAction simpleEnv (.vdict [("type", .vstr "wait"), ("ms", .vbool true)]) =
      .fail (.typed "wait" "ms must be a number") [] ∧
    classifyAction simpleEnv (.vdict [("type", .vstr "wait"), ("ms", .vfloat (-5))]) =
      .ok [] := by
  constructor
  · have h := c8_amended simpleEnv [("type", .vstr "wait"), ("ms", .vbool true)]
      (.vbool true) rfl rfl
    simpa using h
  · have h := c8_amended simpleEnv [("type", .vstr "wait"), ("ms", .vfloat (-5))]
      (.vfloat (-5)) rfl rfl
    simpa using h

/-! ## Claim C6: the type filter constrains output, not reachability -/

theorem collectChildren_eq (vo : Bool) (f : String) :
    ∀ (l : List GNode),
      (∀ c ∈ l, collectControlNodes vo f c =
        ((collectVisited vo c).filter (fun d => (f == "") || d.isClassOf f)).map elementOf) →
      collectChildren vo f l =
        ((visitedChildren vo l).filter (fun d => (f == "") || d.isClassOf f)).map elementOf := by
  intro l
  induction l with
  | nil => intro _; simp [collectChildren, visitedChildren]
  | cons c cs ih =>
    intro hmem
    have h1 := hmem c (List.mem_cons_self _ _)
    have h2 := ih (fun c' hc' => hmem c' (List.mem_cons_of_mem _ hc'))
    simp only [collectChildren, visitedChildren, h1, h2, List.filter_append, List.map_append]

/-- C6.  The UI walker's type filter only removes non-matching nodes from
the output: for every tree, the filtered result is exactly the unfiltered
preorder listing of reachable `Control`s restricted to the nodes matching
the filter; in particular every collectible descendant of a filtered-out
node still appears in the result. -/
theorem c6_filter_membership :
    (∀ (vo : Bool) (f : String) (n : GNode),
      collectControlNodes vo f n =
        ((collectVisited vo n).filter (fun d => (f == "") || d.isClassOf f)).map elementOf) ∧
    (∀ (vo : Bool) (f : String) (n : GNode) (d : NodeData), f ≠ "" →
      d ∈ collectVisited vo n → d.isClassOf f = true →
      elementOf d ∈ collectControlNodes vo f n) := by
  have main : ∀ (n : GNode) (vo : Bool) (f : String),
      collectControlNodes vo f n =
        ((collectVisited vo n).filter (fun d => (f == "") || d.isClassOf f)).map elementOf := by
    intro n
    refine GNode.inductionOn (P := fun n => ∀ (vo : Bool) (f : String),
      collectControlNodes vo f n =
        ((collectVisited vo n).filter (fun d => (f == "") || d.isClassOf f)).map elementOf)
      n ?_
    intro d cs ih vo f
    have hch := collectChildren_eq vo f cs (fun c hc => ih c hc vo f)
    by_cases hctl : d.isControl
    · by_cases hvis : (vo && !d.visibleInTree) = true
      · simp only [collectControlNodes, collectVisited, hctl, hvis, if_true]
        simp
      · have hvis' : (vo && !d.visibleInTree) = false := by simpa using hvis
        by_cases hf : f = ""
        · subst hf
          simp [collectControlNodes, collectVisited, hctl, hvis', hch]
        · by_cases hcl : d.isClassOf f = true
          · have hcond : (f ≠ "" && !d.isClassOf f) = false := by simp [hcl]
            simp only [collectControlNodes, collectVisited, hctl, hvis', if_true]
            simp only [hvis', Bool.false_eq_true, if_false, hcond]
            have hpred : ((f == "") || d.isClassOf f) = true := by simp [hcl]
            simp [hch, hpred]
          · have hcl' : d.isClassOf f = false := by simpa using hcl
            have hcond : (f ≠ "" && !d.isClassOf f) = true := by simp [hcl', hf]
            simp only [collectControlNodes, collectVisited, hctl, hvis', if_true]
            simp only [hvis', Bool.false_eq_true, if_false, hcond]
            have hpred : ((f == "") || d.isClassOf f) = false := by simp [hcl', hf]
            simp [hch, hpred]
    · have hctl' : d.isControl = false := by simpa using hctl
      simp [collectControlNodes, collectVisited, hctl', hch]
  refine ⟨fun vo f n => main n vo f, ?_⟩
  intro vo f n d hf hmem hcls
  rw [main n vo f]
  refine List.mem_map_of_mem elementOf ?_
  rw [List.mem_filter]
  exact ⟨hmem, by simp [hcls]⟩

/-- A tree whose `Panel` (filtered out by a `"Button"` filter) contains a
collectible `Button` descendant. -/
def c6Tree : GNode :=
  .mk ⟨"root", "Window", ["Window", "Viewport", "Node"], "/root", true,
        ⟨0, 0, 640, 480⟩, "", "", false, ""⟩
    [.mk ⟨"Panel", "Panel", ["Panel", "Control", "Node"], "/root/Panel", true,
            ⟨0, 0, 200, 200⟩, "", "", false, ""⟩
       [.mk ⟨"Ok", "Button", ["Button", "BaseButton", "Control", "Node"], "/root/Panel/Ok",
               true, ⟨10, 10, 80, 30⟩, "OK", "", false, ""⟩ []]]

/-- The data record of the button inside `c6Tree`. -/
def c6ButtonData : NodeData :=
  ⟨"Ok", "Button", ["Button", "BaseButton", "Control", "Node"], "/root/Panel/Ok",
    true, ⟨10, 10, 80, 30⟩, "OK", "", false, ""⟩

/-- Witness for C6: with filter `"Button"`, the button below the
filtered-out `Panel` is still collected. -/
theorem c6_witness :
    elementOf c6ButtonData ∈ collectControlNodes true "Button" c6Tree :=
  c6_filter_membership.2 true "Button" c6Tree c6ButtonData (by decide) (by decide) (by decide)

/-! ## Claim C3: injection idempotence and total removal -/

/-- Substring test through an optional file content (`false` when the file
is absent). -/
def optionIncl : Option FContent → FContent → Bool
  | none, _ => false
  | some c, pat => listIncl c pat

theorem unlink_read_other (k : FPath) (fs : List (FPath × FContent)) (p : FPath)
    (h : p ≠ k) : fsRead (unlinkIfExists k fs) p = fsRead fs p := by
  unfold unlinkIfExists
  split
  · exact fsRead_erase_ne fs k p h
  · rfl

theorem unlink_gone (k : FPath) (fs : List (FPath × FContent)) :
    fsExists (unlinkIfExists k fs) k = false := by
  unfold unlinkIfExists
  split
  · exact fsExists_erase_same fs k
  · simp_all

theorem unlink_exists_other (k : FPath) (fs : List (FPath × FContent)) (p : FPath)
    (h : p ≠ k) : fsExists (unlinkIfExists k fs) p = fsExists fs p := by
  simp [fsExists, unlink_read_other k fs p h]

theorem removeAutoload_fs1_read_other (root : FPath) (e fn : String)
    (fs : List (FPath × FContent)) (p : FPath) (h1 : p ≠ projectFilePath root) :
    fsRead (match fsRead fs (projectFilePath root) with
      | some content =>
        if listIncl content (autoloadEntryChars e fn) then
          fsWrite fs (projectFilePath root) (strippedConfig content (autoloadEntryChars e fn))
        else fs
      | none => fs) p = fsRead fs p := by
  cases hr : fsRead fs (projectFilePath root) with
  | none => rfl
  | some c =>
    simp only []
    split
    · exact fsRead_write_ne fs (projectFilePath root) p _ h1
    · rfl

theorem removeAutoload_read_other (root : FPath) (e fn : String)
    (fs : List (FPath × FContent)) (p : FPath)
    (h1 : p ≠ projectFilePath root) (h2 : p ≠ scriptFilePath root fn)
    (h3 : p ≠ uidFilePath root fn) :
    fsRead (removeAutoloadEntry root e fn fs) p = fsRead fs p := by
  unfold removeAutoloadEntry
  rw [unlink_read_other _ _ _ h3, unlink_read_other _ _ _ h2]
  exact removeAutoload_fs1_read_other root e fn fs p h1

theorem removeAutoload_script_gone (root : FPath) (e fn : String)
    (fs : List (FPath × FContent)) (hne : scriptFilePath root fn ≠ uidFilePath root fn) :
    fsExists (removeAutoloadEntry root e fn fs) (scriptFilePath root fn) = false := by
  unfold removeAutoloadEntry
  rw [unlink_exists_other _ _ _ hne]
  exact unlink_gone _ _

theorem removeAutoload_uid_gone (root : FPath) (e fn : String)
    (fs : List (FPath × FContent)) :
    fsExists (removeAutoloadEntry root e fn fs) (uidFilePath root fn) = false := by
  unfold removeAutoloadEntry
  exact unlink_gone _ _

theorem removeAutoload_noop (root : FPath) (e fn : String)
    (fs : List (FPath × FContent))
    (h1 : optionIncl (fsRead fs (projectFilePath root)) (autoloadEntryChars e fn) = false)
    (h2 : fsExists fs (scriptFilePath root fn) = false)
    (h3 : fsExists fs (uidFilePath root fn) = false) :
    removeAutoloadEntry root e fn fs = fs := by
  unfold removeAutoloadEntry
  have hfs1 : (match fsRead fs (projectFilePath root) with
      | some content =>
        if listIncl content (autoloadEntryChars e fn) then
          fsWrite fs (projectFilePath root) (strippedConfig content (autoloadEntryChars e fn))
        else fs
      | none => fs) = fs := by
    cases hr : fsRead fs (projectFilePath root) with
    | none => rfl
    | some c =>
      rw [hr] at h1
      simp only [optionIncl] at h1
      simp [h1]
  rw [hfs1]
  rw [show unlinkIfExists (scriptFilePath root fn) fs = fs from by simp [unlinkIfExists, h2]]
  simp [unlinkIfExists, h3]

theorem removeAutoload_exists_other (root : FPath) (e fn : String)
    (fs : List (FPath × FContent)) (p : FPath)
    (h1 : p ≠ projectFilePath root) (h2 : p ≠ scriptFilePath root fn)
    (h3 : p ≠ uidFilePath root fn) :
    fsExists (removeAutoloadEntry root e fn fs) p = fsExists fs p := by
  simp [fsExists, removeAutoload_read_other root e fn fs p h1 h2 h3]

theorem removeAutoload_read_pf (root : FPath) (e fn : String)
    (fs : List (FPath × FContent))
    (h : optionIncl (fsRead fs (projectFilePath root)) (autoloadEntryChars e fn) = false)
    (hne1 : projectFilePath root ≠ scriptFilePath root fn)
    (hne2 : projectFilePath root ≠ uidFilePath root fn) :
    fsRead (removeAutoloadEntry root e fn fs) (projectFilePath root) =
      fsRead fs (projectFilePath root) := by
  unfold removeAutoloadEntry
  rw [unlink_read_other _ _ _ hne2, unlink_read_other _ _ _ hne1]
  cases hr : fsRead fs (projectFilePath root) with
  | none => exact hr
  | some c =>
    rw [hr] at h
    simp only [optionIncl] at h
    simp [h, hr]

theorem ensureGdignore_read_other (root : FPath) (fs : List (FPath × FContent)) (p : FPath)
    (h : p ≠ gdignorePath root) : fsRead (ensureGdignore root fs) p = fsRead fs p := by
  unfold ensureGdignore
  split
  · rfl
  · exact fsRead_write_ne fs _ p _ h

theorem ensureGdignore_exists (root : FPath) (fs : List (FPath × FContent)) :
    fsExists (ensureGdignore root fs) (gdignorePath root) = true := by
  unfold ensureGdignore
  split
  · assumption
  · exact fsExists_write_same fs _ _

theorem ensureGitignore_read_other (root : FPath) (fs : List (FPath × FContent)) (p : FPath)
    (h : p ≠ gitignorePath root) : fsRead (ensureGitignore root fs) p = fsRead fs p := by
  unfold ensureGitignore
  cases hr : fsRead fs (gitignorePath root) with
  | none => exact fsRead_write_ne fs _ p _ h
  | some g =>
    simp only []
    split
    · rfl
    · exact fsRead_write_ne fs _ p _ h

theorem incl_of_parts (pre pat post : FContent) : listIncl (pre ++ pat ++ post) pat = true := by
  simp only [listIncl, decide_eq_true_eq]
  exact ⟨pre, post, by simp⟩

theorem ensureGitignore_post (root : FPath) (fs : List (FPath × FContent)) :
    ∃ g, fsRead (ensureGitignore root fs) (gitignorePath root) = some g ∧
      listIncl g (chars ".mcp/") = true := by
  unfold ensureGitignore
  cases hr : fsRead fs (gitignorePath root) with
  | none =>
    refine ⟨chars ".mcp/" ++ ['\n'], fsRead_write_same _ _ _, ?_⟩
    have := incl_of_parts [] (chars ".mcp/") ['\n']
    simpa using this
  | some g =>
    simp only []
    by_cases hi : listIncl g (chars ".mcp/") = true
    · exact ⟨g, by simp [hi, hr], hi⟩
    · refine ⟨g ++ (if g.getLast? = some '\n' then ([] : FContent) else ['\n']) ++
        chars ".mcp/" ++ ['\n'], ?_, ?_⟩
      · simp only [hi, Bool.false_eq_true, if_false]
        rw [show g ++ (if g.getLast? = some '\n' then ([] : FContent) else ['\n']) ++
            chars ".mcp/" ++ ['\n'] =
          g ++ ((if g.getLast? = some '\n' then ([] : FContent) else ['\n']) ++
            chars ".mcp/" ++ ['\n']) from by simp]
        rw [show g ++ ((if g.getLast? = some '\n' then ([] : FContent) else ['\n']) ++
            chars ".mcp/" ++ ['\n']) =
          g ++ (if g.getLast? = some '\n' then ([] : FContent) else ['\n']) ++
            chars ".mcp/" ++ ['\n'] from by simp]
        exact fsRead_write_same _ _ _
      · have := incl_of_parts (g ++ (if g.getLast? = some '\n' then ([] : FContent)
          else ['\n'])) (chars ".mcp/") ['\n']
        simpa using this

theorem ensureGitignore_noop (root : FPath) (fs : List (FPath × FContent)) (g : FContent)
    (hr : fsRead fs (gitignorePath root) = some g) (hg : listIncl g (chars ".mcp/") = true) :
    ensureGitignore root fs = fs := by
  unfold ensureGitignore
  rw [hr]
  simp [hg]

/-- The definitional equation of `injectPreFiles`. -/
theorem injectPreFiles_def (root : FPath) (fs : List (FPath × FContent)) :
    injectPreFiles root fs =
      fsWrite (removeAutoloadEntry root "McpScreenshotServer" "mcp_screenshot_server.gd"
        (ensureGitignore root (ensureGdignore root fs)))
        (scriptFilePath root "mcp_bridge.gd") bridgeScriptContent := rfl

theorem preFiles_gdignore_exists (root : FPath) (fs : List (FPath × FContent)) :
    fsExists (injectPreFiles root fs) (gdignorePath root) = true := by
  rw [injectPreFiles_def]
  rw [fsExists_write_ne _ _ _ _
    (show gdignorePath root ≠ scriptFilePath root "mcp_bridge.gd" from rootKey_ne (by decide))]
  rw [removeAutoload_exists_other root _ _ _ _
    (show gdignorePath root ≠ projectFilePath root from rootKey_ne (by decide))
    (show gdignorePath root ≠ scriptFilePath root "mcp_screenshot_server.gd" from
      rootKey_ne (by decide))
    (show gdignorePath root ≠ uidFilePath root "mcp_screenshot_server.gd" from
      rootKey_ne (by decide))]
  rw [show fsExists (ensureGitignore root (ensureGdignore root fs)) (gdignorePath root) =
      fsExists (ensureGdignore root fs) (gdignorePath root) from by
    simp [fsExists, ensureGitignore_read_other root _ _
      (show gdignorePath root ≠ gitignorePath root from rootKey_ne (by decide))]]
  exact ensureGdignore_exists root fs

theorem preFiles_gitignore (root : FPath) (fs : List (FPath × FContent)) :
    ∃ g, fsRead (injectPreFiles root fs) (gitignorePath root) = some g ∧
      listIncl g (chars ".mcp/") = true := by
  obtain ⟨g, hg1, hg2⟩ := ensureGitignore_post root (ensureGdignore root fs)
  refine ⟨g, ?_, hg2⟩
  rw [injectPreFiles_def]
  rw [fsRead_write_ne _ _ _ _
    (show gitignorePath root ≠ scriptFilePath root "mcp_bridge.gd" from rootKey_ne (by decide))]
  rw [removeAutoload_read_other root _ _ _ _
    (show gitignorePath root ≠ projectFilePath root from rootKey_ne (by decide))
    (show gitignorePath root ≠ scriptFilePath root "mcp_screenshot_server.gd" from
      rootKey_ne (by decide))
    (show gitignorePath root ≠ uidFilePath root "mcp_screenshot_server.gd" from
      rootKey_ne (by decide))]
  exact hg1

theorem preFiles_legacy_gone (root : FPath) (fs : List (FPath × FContent)) :
    fsExists (injectPreFiles root fs)
      (scriptFilePath root "mcp_screenshot_server.gd") = false := by
  rw [injectPreFiles_def]
  rw [fsExists_write_ne _ _ _ _
    (show scriptFilePath root "mcp_screenshot_server.gd" ≠ scriptFilePath root "mcp_bridge.gd"
      from rootKey_ne (by decide))]
  exact removeAutoload_script_gone root _ _ _ (rootKey_ne (by decide))

theorem preFiles_legacy_uid_gone (root : FPath) (fs : List (FPath × FContent)) :
    fsExists (injectPreFiles root fs)
      (uidFilePath root "mcp_screenshot_server.gd") = false := by
  rw [injectPreFiles_def]
  rw [fsExists_write_ne _ _ _ _
    (show uidFilePath root "mcp_screenshot_server.gd" ≠ scriptFilePath root "mcp_bridge.gd"
      from rootKey_ne (by decide))]
  exact removeAutoload_uid_gone root _ _ _

theorem preFiles_idem (root : FPath) (fs : List (FPath × FContent))
    (h : fsRead (injectPreFiles root fs) (projectFilePath root) = none) :
    injectPreFiles root (injectPreFiles root fs) = injectPreFiles root fs := by
  have hgd : ensureGdignore root (injectPreFiles root fs) = injectPreFiles root fs := by
    unfold ensureGdignore
    simp [preFiles_gdignore_exists]
  obtain ⟨g, hg1, hg2⟩ := preFiles_gitignore root fs
  have hgit : ensureGitignore root (injectPreFiles root fs) = injectPreFiles root fs :=
    ensureGitignore_noop root _ g hg1 hg2
  have hleg : removeAutoloadEntry root "McpScreenshotServer" "mcp_screenshot_server.gd"
      (injectPreFiles root fs) = injectPreFiles root fs := by
    refine removeAutoload_noop root _ _ _ ?_ ?_ ?_
    · rw [h]; rfl
    · exact preFiles_legacy_gone root fs
    · exact preFiles_legacy_uid_gone root fs
  rw [injectPreFiles_def root (injectPreFiles root fs), hgd, hgit, hleg,
    injectPreFiles_def root fs, fsWrite_write_same]

theorem inject_mem (root : FPath) (s : ServerState) (h : root ∈ s.injected) :
    injectBridgeAutoload root s = s := by
  unfold injectBridgeAutoload
  simp [h]

theorem injectDirs_idem (root : FPath) (dirs : List FPath) :
    injectDirs root (injectDirs root dirs) = injectDirs root dirs := by
  unfold injectDirs
  by_cases h : mcpDirPath root ∈ dirs <;> simp [h]

theorem inject_injected_of_some (root : FPath) (s : ServerState) (c : FContent)
    (hmem : root ∉ s.injected)
    (hr : fsRead (injectPreFiles root s.files) (projectFilePath root) = some c) :
    root ∈ (injectBridgeAutoload root s).injected := by
  unfold injectBridgeAutoload
  simp only [hmem, if_false]
  rw [hr]
  simp only []
  split
  · exact List.mem_cons_self _ _
  · exact List.mem_cons_self _ _

theorem inject_none_eq (root : FPath) (s : ServerState)
    (hmem : root ∉ s.injected)
    (hr : fsRead (injectPreFiles root s.files) (projectFilePath root) = none) :
    injectBridgeAutoload root s =
      { s with files := injectPreFiles root s.files, dirs := injectDirs root s.dirs } := by
  unfold injectBridgeAutoload
  simp only [hmem, if_false]
  rw [hr]

/-- C3.  Injecting the listener into a root twice produces exactly the
same session state (project file contents, copied script, `.mcp`
bookkeeping, `injectedProjects`) as injecting it once; and removing the
listener from a root that was never injected (no autoload entry in its
`project.godot`, no copied script, no `.uid`, not in `injectedProjects`)
completes and leaves the state completely unchanged. -/
theorem c3_inject_idem_remove_total :
    (∀ (s : ServerState) (root : FPath),
      injectBridgeAutoload root (injectBridgeAutoload root s) =
        injectBridgeAutoload root s) ∧
    (∀ (s : ServerState) (root : FPath),
      root ∉ s.injected →
      optionIncl (fsRead s.files (projectFilePath root)) mcpBridgeEntryChars = false →
      fsExists s.files (scriptFilePath root "mcp_bridge.gd") = false →
      fsExists s.files (uidFilePath root "mcp_bridge.gd") = false →
      cleanupBridgeAutoload root s = s) := by
  constructor
  · intro s root
    by_cases hmem : root ∈ s.injected
    · rw [inject_mem root s hmem, inject_mem root s hmem]
    · cases hr : fsRead (injectPreFiles root s.files) (projectFilePath root) with
      | some c =>
        exact inject_mem root _ (inject_injected_of_some root s c hmem hr)
      | none =>
        have h1 := inject_none_eq root s hmem hr
        rw [h1]
        have hmem2 : root ∉
            ({ s with files := injectPreFiles root s.files,
                      dirs := injectDirs root s.dirs } : ServerState).injected := hmem
        have hr2 : fsRead (injectPreFiles root
            ({ s with files := injectPreFiles root s.files,
                      dirs := injectDirs root s.dirs } : ServerState).files)
            (projectFilePath root) = none := by
          show fsRead (injectPreFiles root (injectPreFiles root s.files)) _ = none
          rw [preFiles_idem root s.files hr]
          exact hr
        rw [inject_none_eq root _ hmem2 hr2]
        show ({ s with
          files := injectPreFiles root (injectPreFiles root s.files),
          dirs := injectDirs root (injectDirs root s.dirs) } : ServerState) = _
        rw [preFiles_idem root s.files hr, injectDirs_idem]
  · intro s root hmem hpf hscript huid
    unfold cleanupBridgeAutoload
    rw [removeAutoload_noop root _ _ s.files hpf hscript huid]
    have hfil : s.injected.filter (fun r => r ≠ root) = s.injected := by
      refine List.filter_eq_self.2 ?_
      intro a ha
      simp only [ne_eq, decide_eq_true_eq]
      intro hc
      exact hmem (hc ▸ ha)
    rw [hfil]

/-- Concrete state for the C3 witness: an empty filesystem with one
unrelated injected root. -/
def c3State : ServerState :=
  { files := [(["other", "project.godot"], chars "[gd_scene]")],
    dirs := [], injected := [["other"]], activeRoot := none, processActive := false }

/-- Witness for C3: the removal half applied at a concrete state and a
root (`["proj"]`) that was never injected, plus a concrete double-inject
instance of the idempotence half. -/
theorem c3_witness :
    cleanupBridgeAutoload ["proj"] c3State = c3State ∧
    injectBridgeAutoload ["proj"] (injectBridgeAutoload ["proj"] c3State) =
      injectBridgeAutoload ["proj"] c3State := by
  constructor
  · exact c3_inject_idem_remove_total.2 c3State ["proj"] (by decide) (by decide)
      (by decide) (by decide)
  · exact c3_inject_idem_remove_total.1 c3State ["proj"]

/-! ## Claim C4: switching roots cleans the old root and registers the new one

The proof needs a precise account of the two regex scanners on the
concrete configuration contents produced by injection.  The next block
develops the required positional string lemmas. -/

theorem listIncl_false_iff (hay pat : FContent) :
    listIncl hay pat = false ↔ ¬ pat <:+: hay := by
  simp [listIncl]

theorem listIncl_true_iff (hay pat : FContent) :
    listIncl hay pat = true ↔ pat <:+: hay := by
  simp [listIncl]

theorem prefix_head_eq {l w : List Char} (h : l <+: w) (hne : l ≠ []) :
    w.head? = l.head? := by
  cases l with
  | nil => exact absurd rfl hne
  | cons a l' =>
    cases w with
    | nil => exact absurd (List.prefix_nil.1 h) (by simp)
    | cons b w' =>
      obtain ⟨hab, _⟩ := List.cons_prefix_cons.1 h
      simp [hab]

theorem prefix_of_append_of_le {pat a b : List Char} (h : pat <+: a ++ b)
    (hle : pat.length ≤ a.length) : pat <+: a := by
  have h1 : pat = (a ++ b).take pat.length := List.prefix_iff_eq_take.1 h
  rw [List.take_append_of_le_length hle] at h1
  exact h1 ▸ List.take_prefix _ _

theorem prefix_cross_mem {pat a b : List Char} {hb : Char} (h : pat <+: a ++ b)
    (hlt : a.length < pat.length) (hhb : b.head? = some hb) : hb ∈ pat := by
  have hblen : 0 < b.length := by
    cases b with
    | nil => simp at hhb
    | cons x xs => simp
  have hlen2 : a.length < (a ++ b).length := by simp; omega
  have hget : (a ++ b)[a.length] = hb := by
    rw [List.getElem_append_right (le_refl a.length)]
    simp only [Nat.sub_self]
    cases b with
    | nil => simp at hhb
    | cons x xs => simp at hhb ⊢; exact hhb
  have h2 := h.getElem hlt
  rw [hget] at h2
  rw [← h2]
  exact List.getElem_mem hlt

theorem suffix_append_split {z a b : List Char} (h : z <:+ a ++ b) :
    z <:+ b ∨ ∃ z', z = z' ++ b ∧ z' <:+ a := by
  obtain ⟨u, hu⟩ := h
  by_cases hle : z.length ≤ b.length
  · left
    have hlen : u.length = a.length + b.length - z.length := by
      have := congrArg List.length hu
      simp at this
      omega
    have : z = (a ++ b).drop u.length := by
      rw [← hu]; simp
    rw [this]
    have hge : a.length ≤ u.length := by omega
    rw [List.drop_append_eq_append_drop]
    have : a.drop u.length = [] := by
      apply List.drop_eq_nil_of_le; omega
    rw [this, List.nil_append]
    exact List.drop_suffix _ _
  · right
    have hlen : u.length = a.length + b.length - z.length := by
      have := congrArg List.length hu
      simp at this
      omega
    have hz : z = (a ++ b).drop u.length := by
      rw [← hu]; simp
    have hle2 : u.length ≤ a.length := by omega
    rw [List.drop_append_of_le_length hle2] at hz
    exact ⟨a.drop u.length, hz, List.drop_suffix _ _⟩

theorem infix_of_prefix_of_suffix {pat z a : List Char} (h1 : pat <+: z) (h2 : z <:+ a) :
    pat <:+: a :=
  List.IsInfix.trans h1.isInfix h2.isInfix

/-- Central no-match lemma: a pattern that starts with `hch`, contains no
newline and does not occur in `c'` cannot match at any position that
starts strictly inside `c' ++ t`, provided `hch` does not occur in `t` and
the text continues with a newline right after `c' ++ t` ends... more
precisely `t ++ ys` starts with a newline (so any match crossing the
boundary of `c'` covers a newline). -/
theorem pat_noPrefix_at (pat c' t ys : FContent) (hch : Char)
    (hhead : pat.head? = some hch)
    (hc : ¬ pat <:+: c') (hM : hch ∉ t) (hnl : '\n' ∉ pat)
    (hty : ∃ u, t ++ ys = '\n' :: u) :
    ∀ x₂, x₂ <:+ c' ++ t → x₂ ≠ [] → ¬ pat.isPrefixOf (x₂ ++ ys) := by
  intro x₂ hsuf hne hmatch
  rw [List.isPrefixOf_iff_prefix] at hmatch
  have hpatne : pat ≠ [] := by
    intro hp; rw [hp] at hhead; simp at hhead
  rcases suffix_append_split hsuf with hin | ⟨z', hz, hz'⟩
  · -- x₂ is a suffix of t: the first char of x₂ would have to be hch ∈ t
    cases x₂ with
    | nil => exact hne rfl
    | cons x xs =>
      have hx : x ∈ t := hin.subset (List.mem_cons_self x xs)
      have hhd := prefix_head_eq hmatch hpatne
      rw [hhead] at hhd
      simp at hhd
      exact hM (hhd ▸ hx)
  · -- x₂ = z' ++ t with z' a suffix of c'
    subst hz
    rw [List.append_assoc] at hmatch
    by_cases hle : pat.length ≤ z'.length
    · exact hc (infix_of_prefix_of_suffix (prefix_of_append_of_le hmatch hle) hz')
    · obtain ⟨u, hu⟩ := hty
      have hhb : (t ++ ys).head? = some '\n' := by rw [hu]; rfl
      exact hnl (prefix_cross_mem hmatch (by omega) hhb)

/-- Variant of `pat_noPrefix_at` for the optional-newline pattern
`'\n' :: pat` used by the entry-removal scanner. -/
theorem nlPat_noPrefix_at (pat c' t ys : FContent) (hch : Char)
    (hhead : pat.head? = some hch)
    (hc : ¬ pat <:+: c') (hM : hch ∉ t) (hnl : '\n' ∉ pat)
    (hty : ∃ u, t ++ ys = '\n' :: u)
    (hys1 : ¬ (pat.isPrefixOf ys = true))
    (hys2 : ¬ (('\n' :: pat).isPrefixOf (t ++ ys) = true)) :
    ∀ x₂, x₂ <:+ c' ++ t → x₂ ≠ [] → ¬ ('\n' :: pat).isPrefixOf (x₂ ++ ys) := by
  intro x₂ hsuf hne hmatch
  rw [List.isPrefixOf_iff_prefix] at hmatch
  have hpatne : pat ≠ [] := by
    intro hp; rw [hp] at hhead; simp at hhead
  rcases suffix_append_split hsuf with hin | ⟨z', hz, hz'⟩
  · cases x₂ with
    | nil => exact hne rfl
    | cons x xs =>
      obtain ⟨hx, hrest⟩ := List.cons_prefix_cons.1 hmatch
      cases xs with
      | nil =>
        rw [List.isPrefixOf_iff_prefix] at hys1
        exact hys1 (by simpa using hrest)
      | cons y ys' =>
        have hysuff : (y :: ys') <:+ t := by
          obtain ⟨u', hu'⟩ := hin
          exact ⟨u' ++ [x], by simp [← hu']⟩
        have hy : y ∈ t := hysuff.subset (List.mem_cons_self y ys')
        have hhd := prefix_head_eq hrest hpatne
        rw [hhead] at hhd
        simp at hhd
        exact hM (hhd ▸ hy)
  · subst hz
    cases z' with
    | nil =>
      rw [List.isPrefixOf_iff_prefix] at hys2
      exact hys2 (by simpa using hmatch)
    | cons c z'' =>
      have hmatch2 : ('\n' :: pat) <+: (c :: z'') ++ (t ++ ys) := by
        simpa [List.append_assoc] using hmatch
      obtain ⟨hc1, hrest⟩ := List.cons_prefix_cons.1 hmatch2
      have hz'' : z'' <:+ c' := by
        obtain ⟨u', hu'⟩ := hz'
        exact ⟨u' ++ [c], by simp [← hu']⟩
      by_cases hle : pat.length ≤ z''.length
      · exact hc (infix_of_prefix_of_suffix (prefix_of_append_of_le hrest hle) hz'')
      · obtain ⟨u, hu⟩ := hty
        have hhb : (t ++ ys).head? = some '\n' := by rw [hu]; rfl
        exact hnl (prefix_cross_mem hrest (by omega) hhb)

theorem scanRemoveNlPat_skip (pat ys : FContent) : ∀ (xs : FContent) (fuel : Nat),
    (∀ x₂, x₂ <:+ xs → x₂ ≠ [] →
      ¬ ('\n' :: pat).isPrefixOf (x₂ ++ ys) ∧ ¬ pat.isPrefixOf (x₂ ++ ys)) →
    scanRemoveNlPat pat (fuel + xs.length) (xs ++ ys) = xs ++ scanRemoveNlPat pat fuel ys := by
  intro xs
  induction xs with
  | nil => intro fuel h; simp
  | cons c xs' ih =>
    intro fuel h
    have hself := h (c :: xs') (List.suffix_refl _) (by simp)
    have hb1 : ('\n' :: pat).isPrefixOf (c :: xs' ++ ys) = false :=
      Bool.eq_false_iff.2 hself.1
    have hb2 : pat.isPrefixOf (c :: xs' ++ ys) = false :=
      Bool.eq_false_iff.2 hself.2
    have hlen : fuel + (c :: xs').length = (fuel + xs'.length) + 1 := by simp; omega
    rw [hlen]
    show scanRemoveNlPat pat ((fuel + xs'.length) + 1) (c :: (xs' ++ ys)) = _
    simp only [scanRemoveNlPat]
    rw [show (c :: (xs' ++ ys)) = c :: xs' ++ ys from rfl, hb1, hb2]
    simp only [Bool.false_eq_true, if_false]
    have hrest : ∀ x₂, x₂ <:+ xs' → x₂ ≠ [] →
        ¬ ('\n' :: pat).isPrefixOf (x₂ ++ ys) ∧ ¬ pat.isPrefixOf (x₂ ++ ys) := by
      intro x₂ hx hne
      exact h x₂ (hx.trans ⟨[c], rfl⟩) hne
    rw [ih fuel hrest, List.cons_append]

theorem scanRemoveNlPat_match (pat ys : FContent) (fuel : Nat) :
    scanRemoveNlPat pat (fuel + 1) (('\n' :: pat) ++ ys) = scanRemoveNlPat pat fuel ys := by
  have h1 : ('\n' :: pat) ++ ys = '\n' :: (pat ++ ys) := by simp
  rw [h1]
  simp only [scanRemoveNlPat]
  have hpre : ('\n' :: pat).isPrefixOf ('\n' :: (pat ++ ys)) = true := by
    rw [List.isPrefixOf_iff_prefix]
    exact ⟨ys, by simp⟩
  rw [hpre]
  simp only [if_true]
  congr 1
  rw [← h1]
  exact List.drop_left _ _

theorem scanRemoveNlPat_nl (pat : FContent) (fuel : Nat) (hne : pat ≠ [])
    (hnl : pat.head? ≠ some '\n') :
    scanRemoveNlPat pat (fuel + 1) ['\n'] = ['\n'] := by
  have h1 : ¬ (('\n' :: pat).isPrefixOf ['\n'] = true) := by
    rw [List.isPrefixOf_iff_prefix]
    intro hp
    have hl := hp.length_le
    simp at hl
    exact hne hl
  have h2 : ¬ (pat.isPrefixOf ['\n'] = true) := by
    rw [List.isPrefixOf_iff_prefix]
    intro hp
    have hh := prefix_head_eq hp hne
    simp at hh
    exact hnl hh.symm
  have hb1 : ('\n' :: pat).isPrefixOf ['\n'] = false := Bool.eq_false_iff.2 h1
  have hb2 : pat.isPrefixOf ['\n'] = false := Bool.eq_false_iff.2 h2
  simp only [scanRemoveNlPat, hb1, hb2, Bool.false_eq_true, if_false]

theorem scanRemoveHeaders_skip (ys : FContent) : ∀ (xs : FContent) (fuel : Nat),
    (∀ x₂, x₂ <:+ xs → x₂ ≠ [] → ¬ (chars "[autoload]").isPrefixOf (x₂ ++ ys)) →
    scanRemoveHeaders (fuel + xs.length) (xs ++ ys) = xs ++ scanRemoveHeaders fuel ys := by
  intro xs
  induction xs with
  | nil => intro fuel h; simp
  | cons c xs' ih =>
    intro fuel h
    have hself := h (c :: xs') (List.suffix_refl _) (by simp)
    have hb : (chars "[autoload]").isPrefixOf (c :: xs' ++ ys) = false :=
      Bool.eq_false_iff.2 hself
    have hlen : fuel + (c :: xs').length = (fuel + xs'.length) + 1 := by simp; omega
    rw [hlen]
    show scanRemoveHeaders ((fuel + xs'.length) + 1) (c :: (xs' ++ ys)) = _
    simp only [scanRemoveHeaders]
    rw [show (c :: (xs' ++ ys)) = c :: xs' ++ ys from rfl, hb]
    simp only [Bool.false_eq_true, if_false]
    have hrest : ∀ x₂, x₂ <:+ xs' → x₂ ≠ [] →
        ¬ (chars "[autoload]").isPrefixOf (x₂ ++ ys) := by
      intro x₂ hx hne
      exact h x₂ (hx.trans ⟨[c], rfl⟩) hne
    rw [ih fuel hrest, List.cons_append]

theorem scanRemoveHeaders_match (fuel : Nat) :
    scanRemoveHeaders (fuel + 1) (chars "[autoload]" ++ ['\n']) = [] := by
  have h1 : chars "[autoload]" ++ ['\n'] = '[' :: chars "autoload]\n" := by decide
  rw [h1]
  simp only [scanRemoveHeaders]
  have hpre : (chars "[autoload]").isPrefixOf ('[' :: chars "autoload]\n") = true := by decide
  rw [hpre]
  simp only [if_true]
  have hdrop : List.drop (chars "[autoload]").length ('[' :: chars "autoload]\n") = ['\n'] := by
    decide
  rw [hdrop]
  have hgs : greedyStop2 ['\n'] = some [] := by decide
  rw [hgs]
  simp only [scanRemoveHeaders]

theorem testM_false_of_no_match : ∀ (fuel : Nat) (cs : FContent) (b : Bool),
    (∀ z, z <:+ cs → ¬ (chars "[autoload]").isPrefixOf z) →
    testAutoloadHeaderM fuel b cs = false := by
  intro fuel
  induction fuel with
  | zero =>
    intro cs b h
    cases cs <;> simp [testAutoloadHeaderM]
  | succ f ih =>
    intro cs b h
    cases cs with
    | nil => simp [testAutoloadHeaderM]
    | cons c cs' =>
      have hb : (chars "[autoload]").isPrefixOf (c :: cs') = false :=
        Bool.eq_false_iff.2 (h (c :: cs') (List.suffix_refl _))
      simp only [testAutoloadHeaderM, hb]
      rw [show (b && false && (greedyStopM (List.drop (chars "[autoload]").length
        (c :: cs'))).isSome) = false from by simp]
      simp only [Bool.false_eq_true, if_false]
      exact ih cs' (c = '\n') (fun z hz => h z (hz.trans ⟨[c], rfl⟩))

theorem jsTest_false (content : FContent)
    (hc : ¬ (chars "[autoload]") <:+: content) : jsTestAutoloadHeader content = false := by
  unfold jsTestAutoloadHeader
  refine testM_false_of_no_match content.length content true ?_
  intro z hz hp
  exact hc (infix_of_prefix_of_suffix (List.isPrefixOf_iff_prefix.1 hp) hz)

theorem dropWhile_idem (p : Char → Bool) (l : List Char) :
    (l.dropWhile p).dropWhile p = l.dropWhile p := by
  induction l with
  | nil => simp
  | cons c cs ih =>
    by_cases hp : p c <;> simp [List.dropWhile_cons, hp, ih]

theorem trimEndJs_idem (cs : FContent) : trimEndJs (trimEndJs cs) = trimEndJs cs := by
  unfold trimEndJs
  rw [List.reverse_reverse, dropWhile_idem]

theorem dropWhile_append_all (p : Char → Bool) (a b : List Char)
    (ha : ∀ c ∈ a, p c = true) : (a ++ b).dropWhile p = b.dropWhile p := by
  induction a with
  | nil => simp
  | cons c cs ih =>
    have hc := ha c (List.mem_cons_self _ _)
    simp only [List.cons_append, List.dropWhile_cons, hc, if_true]
    exact ih (fun x hx => ha x (List.mem_cons_of_mem _ hx))

theorem trimEndJs_append_nl2 (cs : FContent) :
    trimEndJs (cs ++ ['\n', '\n']) = trimEndJs cs := by
  unfold trimEndJs
  rw [List.reverse_append]
  rw [dropWhile_append_all isJsWs ['\n', '\n'].reverse cs.reverse (by decide)]

theorem trimEndJs_pref (cs : FContent) : trimEndJs cs <+: cs := by
  have h1 : cs.reverse.dropWhile isJsWs <:+ cs.reverse := List.dropWhile_suffix _
  have h2 := List.reverse_prefix.2 h1
  rw [List.reverse_reverse] at h2
  exact h2

/-- The `project.godot` content produced by a fresh injection into content
`c` with no `[autoload]` section. -/
def injectedConfig (c : FContent) : FContent :=
  trimEndJs c ++ chars "\n\n[autoload]\n" ++ mcpBridgeEntryChars ++ ['\n']

theorem not_infix_trimEnd (X c : FContent) (h : ¬ X <:+: c) : ¬ X <:+: trimEndJs c :=
  fun hi => h (hi.trans (trimEndJs_pref c).isInfix)

theorem injected_noMatch (c' : FContent) (hcE : ¬ mcpBridgeEntryChars <:+: c') :
    ∀ x₂, x₂ <:+ c' ++ chars "\n\n[autoload]" → x₂ ≠ [] →
      ¬ ('\n' :: mcpBridgeEntryChars).isPrefixOf
          (x₂ ++ (('\n' :: mcpBridgeEntryChars) ++ ['\n'])) ∧
      ¬ mcpBridgeEntryChars.isPrefixOf (x₂ ++ (('\n' :: mcpBridgeEntryChars) ++ ['\n'])) := by
  intro x₂ hsuf hne
  constructor
  · refine nlPat_noPrefix_at mcpBridgeEntryChars c' (chars "\n\n[autoload]")
      (('\n' :: mcpBridgeEntryChars) ++ ['\n']) 'M' (by decide) hcE (by decide) (by decide)
      ⟨chars "\n[autoload]" ++ (('\n' :: mcpBridgeEntryChars) ++ ['\n']), by decide⟩
      (by decide) (by decide) x₂ hsuf hne
  · refine pat_noPrefix_at mcpBridgeEntryChars c' (chars "\n\n[autoload]")
      (('\n' :: mcpBridgeEntryChars) ++ ['\n']) 'M' (by decide) hcE (by decide) (by decide)
      ⟨chars "\n[autoload]" ++ (('\n' :: mcpBridgeEntryChars) ++ ['\n']), by decide⟩
      x₂ hsuf hne

theorem removeNl_on_injected (c' : FContent) (hcE : ¬ mcpBridgeEntryChars <:+: c') :
    jsRemoveNlEntryAll (c' ++ chars "\n\n[autoload]\n" ++ mcpBridgeEntryChars ++ ['\n'])
      mcpBridgeEntryChars = c' ++ chars "\n\n[autoload]\n" := by
  have hsplit : chars "\n\n[autoload]\n" = chars "\n\n[autoload]" ++ ['\n'] := by decide
  have hshape : c' ++ chars "\n\n[autoload]\n" ++ mcpBridgeEntryChars ++ ['\n'] =
      (c' ++ chars "\n\n[autoload]") ++ (('\n' :: mcpBridgeEntryChars) ++ ['\n']) := by
    rw [hsplit]
    simp [List.append_assoc]
  unfold jsRemoveNlEntryAll
  rw [hshape]
  have hlen : ((c' ++ chars "\n\n[autoload]") ++ (('\n' :: mcpBridgeEntryChars) ++ ['\n'])).length
      = (('\n' :: mcpBridgeEntryChars) ++ ['\n']).length + (c' ++ chars "\n\n[autoload]").length := by
    simp [List.length_append]
    omega
  rw [hlen]
  rw [scanRemoveNlPat_skip mcpBridgeEntryChars (('\n' :: mcpBridgeEntryChars) ++ ['\n'])
    (c' ++ chars "\n\n[autoload]") _ (injected_noMatch c' hcE)]
  have hlen2 : (('\n' :: mcpBridgeEntryChars) ++ ['\n']).length =
      (mcpBridgeEntryChars.length + 1) + 1 := by
    simp
  rw [hlen2, scanRemoveNlPat_match]
  have hlast : scanRemoveNlPat mcpBridgeEntryChars (mcpBridgeEntryChars.length + 1) ['\n'] =
      ['\n'] := scanRemoveNlPat_nl _ _ (by decide) (by decide)
  rw [hlast, hsplit]
  simp [List.append_assoc]

theorem headers_on_result (c' : FContent) (hcA : ¬ (chars "[autoload]") <:+: c') :
    jsRemoveAutoloadHeaders (c' ++ chars "\n\n[autoload]\n") = c' ++ ['\n', '\n'] := by
  have hshape : c' ++ chars "\n\n[autoload]\n" =
      (c' ++ ['\n', '\n']) ++ (chars "[autoload]" ++ ['\n']) := by
    have : chars "\n\n[autoload]\n" = ['\n', '\n'] ++ (chars "[autoload]" ++ ['\n']) := by decide
    rw [this]
    simp [List.append_assoc]
  unfold jsRemoveAutoloadHeaders
  rw [hshape]
  have hlen : ((c' ++ ['\n', '\n']) ++ (chars "[autoload]" ++ ['\n'])).length =
      (chars "[autoload]" ++ ['\n']).length + (c' ++ ['\n', '\n']).length := by
    simp [List.length_append]
    omega
  rw [hlen]
  have hno : ∀ x₂, x₂ <:+ c' ++ ['\n', '\n'] → x₂ ≠ [] →
      ¬ (chars "[autoload]").isPrefixOf (x₂ ++ (chars "[autoload]" ++ ['\n'])) := by
    intro x₂ hsuf hne
    exact pat_noPrefix_at (chars "[autoload]") c' ['\n', '\n'] (chars "[autoload]" ++ ['\n'])
      '[' (by decide) hcA (by decide) (by decide)
      ⟨['\n'] ++ (chars "[autoload]" ++ ['\n']), by decide⟩ x₂ hsuf hne
  rw [scanRemoveHeaders_skip (chars "[autoload]" ++ ['\n']) (c' ++ ['\n', '\n']) _ hno]
  have hlen2 : (chars "[autoload]" ++ ['\n']).length = 10 + 1 := by decide
  rw [hlen2, scanRemoveHeaders_match]
  simp

/-- The configuration written back by `removeAutoloadEntry` for a freshly
injected file: exactly the original (trimmed) content plus one final
newline. -/
theorem stripped_on_injected (c : FContent)
    (hE : ¬ mcpBridgeEntryChars <:+: c) (hA : ¬ (chars "[autoload]") <:+: c) :
    strippedConfig (injectedConfig c) mcpBridgeEntryChars = trimEndJs c ++ ['\n'] := by
  unfold strippedConfig injectedConfig
  rw [removeNl_on_injected (trimEndJs c) (not_infix_trimEnd _ _ hE)]
  rw [headers_on_result (trimEndJs c) (not_infix_trimEnd _ _ hA)]
  rw [trimEndJs_append_nl2, trimEndJs_idem]

theorem no_entry_in_final (c' : FContent) (hc : ¬ mcpBridgeEntryChars <:+: c') :
    ¬ mcpBridgeEntryChars <:+: (c' ++ ['\n']) := by
  intro hi
  obtain ⟨z, hz1, hz2⟩ := List.infix_iff_prefix_suffix.1 hi
  rcases suffix_append_split hz2 with hin | ⟨z', hzz, hz'⟩
  · have h1 := hz1.length_le
    have h2 := hin.length_le
    simp at h2
    have : (2 : Nat) ≤ mcpBridgeEntryChars.length := by decide
    omega
  · subst hzz
    by_cases hle : mcpBridgeEntryChars.length ≤ z'.length
    · exact hc (infix_of_prefix_of_suffix (prefix_of_append_of_le hz1 hle) hz')
    · have hmem : '\n' ∈ mcpBridgeEntryChars :=
        prefix_cross_mem hz1 (by omega) (by rfl)
      exact absurd hmem (by decide)

/-- A freshly injected configuration contains the bridge autoload entry at
exactly one position. -/
theorem unique_entry_occurrence (c : FContent)
    (hE : ¬ mcpBridgeEntryChars <:+: c) :
    ∃! i : Nat, mcpBridgeEntryChars.isPrefixOf ((injectedConfig c).drop i) = true := by
  have hc' : ¬ mcpBridgeEntryChars <:+: trimEndJs c := not_infix_trimEnd _ _ hE
  have hshape : injectedConfig c =
      (trimEndJs c ++ chars "\n\n[autoload]\n") ++ (mcpBridgeEntryChars ++ ['\n']) := by
    unfold injectedConfig
    simp [List.append_assoc]
  set P := trimEndJs c ++ chars "\n\n[autoload]\n" with hP
  refine ⟨P.length, ?_, ?_⟩
  · show mcpBridgeEntryChars.isPrefixOf ((injectedConfig c).drop P.length) = true
    rw [hshape, List.drop_left]
    rw [List.isPrefixOf_iff_prefix]
    exact List.prefix_append _ _
  · intro j hj
    rw [hshape] at hj
    rcases lt_trichotomy j P.length with hlt | heq | hgt
    · exfalso
      have hd : ((P ++ (mcpBridgeEntryChars ++ ['\n'])).drop j) =
          P.drop j ++ (mcpBridgeEntryChars ++ ['\n']) :=
        List.drop_append_of_le_length (le_of_lt hlt)
      rw [hd] at hj
      have hzne : P.drop j ≠ [] := by
        intro hnil
        have := congrArg List.length hnil
        simp at this
        omega
      refine pat_noPrefix_at mcpBridgeEntryChars (trimEndJs c) (chars "\n\n[autoload]\n")
        (mcpBridgeEntryChars ++ ['\n']) 'M' (by decide) hc' (by decide) (by decide)
        ⟨chars "\n[autoload]\n" ++ (mcpBridgeEntryChars ++ ['\n']), by decide⟩
        (P.drop j) (hP ▸ List.drop_suffix j P) hzne ?_
      exact hj
    · exact heq
    · exfalso
      obtain ⟨k, hk⟩ : ∃ k, j = P.length + k := ⟨j - P.length, by omega⟩
      have hkpos : 1 ≤ k := by omega
      subst hk
      rw [List.drop_append] at hj
      rw [List.isPrefixOf_iff_prefix] at hj
      by_cases hkE : mcpBridgeEntryChars.length ≤ k
      · have h1 := hj.length_le
        have h2 : ((mcpBridgeEntryChars ++ ['\n']).drop k).length =
            mcpBridgeEntryChars.length + 1 - k := by simp
        have : (2 : Nat) ≤ mcpBridgeEntryChars.length := by decide
        omega
      · have hd2 : (mcpBridgeEntryChars ++ ['\n']).drop k =
            mcpBridgeEntryChars.drop k ++ ['\n'] :=
          List.drop_append_of_le_length (by omega)
        rw [hd2] at hj
        have hdne : mcpBridgeEntryChars.drop k ≠ [] := by
          intro hnil
          have := congrArg List.length hnil
          simp at this
          omega
        obtain ⟨hd, tl, hht⟩ := List.exists_cons_of_ne_nil hdne
        have hh := prefix_head_eq hj (by decide)
        rw [hht] at hh
        simp at hh
        have hhd : hd = 'M' := by
          have hM : mcpBridgeEntryChars.head? = some 'M' := by decide
          rw [hM] at hh
          simpa using hh
        have hsub : mcpBridgeEntryChars.drop k <:+ mcpBridgeEntryChars.drop 1 := by
          have : mcpBridgeEntryChars.drop k = (mcpBridgeEntryChars.drop 1).drop (k - 1) := by
            rw [List.drop_drop]
            congr 1
            omega
          rw [this]
          exact List.drop_suffix _ _
        have hmem : hd ∈ mcpBridgeEntryChars.drop 1 := by
          refine hsub.subset ?_
          rw [hht]
          exact List.mem_cons_self _ _
        rw [hhd] at hmem
        exact absurd hmem (by decide)

theorem preFiles_read_pf (root : FPath) (fs : List (FPath × FContent))
    (h : optionIncl (fsRead fs (projectFilePath root))
      (autoloadEntryChars "McpScreenshotServer" "mcp_screenshot_server.gd") = false) :
    fsRead (injectPreFiles root fs) (projectFilePath root) =
      fsRead fs (projectFilePath root) := by
  rw [injectPreFiles_def]
  rw [fsRead_write_ne _ _ _ _
    (show projectFilePath root ≠ scriptFilePath root "mcp_bridge.gd" from
      rootKey_ne (by decide))]
  have hg : fsRead (ensureGitignore root (ensureGdignore root fs)) (projectFilePath root) =
      fsRead fs (projectFilePath root) := by
    rw [ensureGitignore_read_other root _ _
      (show projectFilePath root ≠ gitignorePath root from rootKey_ne (by decide))]
    exact ensureGdignore_read_other root _ _
      (show projectFilePath root ≠ gdignorePath root from rootKey_ne (by decide))
  rw [removeAutoload_read_pf root _ _ _ (by rw [hg]; exact h)
    (show projectFilePath root ≠ scriptFilePath root "mcp_screenshot_server.gd" from
      rootKey_ne (by decide))
    (show projectFilePath root ≠ uidFilePath root "mcp_screenshot_server.gd" from
      rootKey_ne (by decide))]
  exact hg

theorem preFiles_read_other (root : FPath) (fs : List (FPath × FContent)) (p : FPath)
    (h1 : p ≠ gdignorePath root) (h2 : p ≠ gitignorePath root)
    (h3 : p ≠ projectFilePath root)
    (h4 : p ≠ scriptFilePath root "mcp_screenshot_server.gd")
    (h5 : p ≠ uidFilePath root "mcp_screenshot_server.gd")
    (h6 : p ≠ scriptFilePath root "mcp_bridge.gd") :
    fsRead (injectPreFiles root fs) p = fsRead fs p := by
  rw [injectPreFiles_def]
  rw [fsRead_write_ne _ _ _ _ h6]
  rw [removeAutoload_read_other root _ _ _ _ h3 h4 h5]
  rw [ensureGitignore_read_other root _ _ h2]
  exact ensureGdignore_read_other root _ _ h1

theorem inject_clean_eq (root : FPath) (s : ServerState) (c : FContent)
    (hmem : root ∉ s.injected)
    (hr : fsRead (injectPreFiles root s.files) (projectFilePath root) = some c)
    (hE : listIncl c mcpBridgeEntryChars = false)
    (hT : jsTestAutoloadHeader c = false) :
    injectBridgeAutoload root s =
      { s with files := fsWrite (injectPreFiles root s.files) (projectFilePath root)
                 (injectedConfig c),
               dirs := injectDirs root s.dirs,
               injected := root :: s.injected } := by
  unfold injectBridgeAutoload
  simp only [hmem, if_false]
  rw [hr]
  simp only [hE, Bool.false_eq_true, if_false, hT]
  rfl

theorem cleanup_read_other (root : FPath) (s : ServerState) (p : FPath)
    (h1 : p ≠ projectFilePath root) (h2 : p ≠ scriptFilePath root "mcp_bridge.gd")
    (h3 : p ≠ uidFilePath root "mcp_bridge.gd") :
    fsRead (cleanupBridgeAutoload root s).files p = fsRead s.files p := by
  unfold cleanupBridgeAutoload
  exact removeAutoload_read_other root _ _ s.files p h1 h2 h3

theorem cleanup_not_injected (root other : FPath) (s : ServerState)
    (h : other ∉ s.injected) : other ∉ (cleanupBridgeAutoload root s).injected := by
  unfold cleanupBridgeAutoload
  intro hc
  exact h (List.mem_of_mem_filter hc)

theorem fsExists_false_read (fs : List (FPath × FContent)) (p : FPath)
    (h : fsExists fs p = false) : fsRead fs p = none := by
  unfold fsExists at h
  cases hr : fsRead fs p with
  | none => rfl
  | some c => rw [hr] at h; simp at h

theorem removeAutoload_on_injected (root : FPath) (fs : List (FPath × FContent))
    (c : FContent)
    (hr : fsRead fs (projectFilePath root) = some (injectedConfig c))
    (hE : ¬ mcpBridgeEntryChars <:+: c) (hA : ¬ (chars "[autoload]") <:+: c) :
    fsRead (removeAutoloadEntry root "McpBridge" "mcp_bridge.gd" fs) (projectFilePath root) =
      some (trimEndJs c ++ ['\n']) ∧
    fsRead (removeAutoloadEntry root "McpBridge" "mcp_bridge.gd" fs)
      (scriptFilePath root "mcp_bridge.gd") = none := by
  have hentry : autoloadEntryChars "McpBridge" "mcp_bridge.gd" = mcpBridgeEntryChars := rfl
  have hincl : listIncl (injectedConfig c) mcpBridgeEntryChars = true := by
    have h1 := incl_of_parts (trimEndJs c ++ chars "\n\n[autoload]\n")
      mcpBridgeEntryChars ['\n']
    have h2 : injectedConfig c =
        trimEndJs c ++ chars "\n\n[autoload]\n" ++ mcpBridgeEntryChars ++ ['\n'] := rfl
    rw [h2]
    exact h1
  constructor
  · unfold removeAutoloadEntry
    rw [unlink_read_other _ _ _
      (show projectFilePath root ≠ uidFilePath root "mcp_bridge.gd" from
        rootKey_ne (by decide))]
    rw [unlink_read_other _ _ _
      (show projectFilePath root ≠ scriptFilePath root "mcp_bridge.gd" from
        rootKey_ne (by decide))]
    rw [hr]
    simp only [hentry, hincl, if_true]
    rw [fsRead_write_same]
    rw [stripped_on_injected c hE hA]
  · refine fsExists_false_read _ _ ?_
    exact removeAutoload_script_gone root _ _ fs (rootKey_ne (by decide))

theorem runProject_idle (root : FPath) (s : ServerState) (h : s.processActive = false) :
    runProject root s =
      { injectBridgeAutoload root s with activeRoot := some root, processActive := true } := by
  unfold runProject
  simp [h]

theorem runProject_switch (root old : FPath) (s : ServerState)
    (h1 : s.processActive = true) (h2 : s.activeRoot = some old) (h3 : old ≠ root) :
    runProject root s =
      { injectBridgeAutoload root (cleanupBridgeAutoload old s) with
        activeRoot := some root, processActive := true } := by
  unfold runProject
  rw [h2]
  simp [h1, h3]

/-- C4: for distinct project roots `A` and `B` (neither a path-prefix of
the other), with no process active, neither root injected, and both
`project.godot` files readable with clean contents (no bridge entry, no
`[autoload]` header, no legacy screenshot-server entry), running
`runProject A` then `runProject B` without an intervening stop leaves
root `A`'s configuration with no bridge autoload entry and no
`mcp_bridge.gd` script file, while root `B`'s configuration contains the
bridge autoload entry at exactly one position. -/
theorem c4_switch_roots (s₀ : ServerState) (A B : FPath) (cA cB : FContent)
    (hAB : ¬ A <+: B) (hBA : ¬ B <+: A)
    (hproc : s₀.processActive = false)
    (hAinj : A ∉ s₀.injected) (hBinj : B ∉ s₀.injected)
    (hcA : fsRead s₀.files (projectFilePath A) = some cA)
    (hcB : fsRead s₀.files (projectFilePath B) = some cB)
    (hA1 : ¬ mcpBridgeEntryChars <:+: cA)
    (hA2 : ¬ (chars "[autoload]") <:+: cA)
    (hAL : listIncl cA
      (autoloadEntryChars "McpScreenshotServer" "mcp_screenshot_server.gd") = false)
    (hB1 : ¬ mcpBridgeEntryChars <:+: cB)
    (hB2 : ¬ (chars "[autoload]") <:+: cB)
    (hBL : listIncl cB
      (autoloadEntryChars "McpScreenshotServer" "mcp_screenshot_server.gd") = false) :
    fsRead (runProject B (runProject A s₀)).files (projectFilePath A) =
      some (trimEndJs cA ++ ['\n']) ∧
    ¬ mcpBridgeEntryChars <:+: (trimEndJs cA ++ ['\n']) ∧
    fsRead (runProject B (runProject A s₀)).files (scriptFilePath A "mcp_bridge.gd") =
      none ∧
    fsRead (runProject B (runProject A s₀)).files (projectFilePath B) =
      some (injectedConfig cB) ∧
    (∃! i : Nat, mcpBridgeEntryChars.isPrefixOf ((injectedConfig cB).drop i) = true) := by
  have hABne : A ≠ B := fun h => hAB (h ▸ List.prefix_refl _)
  have hEA : listIncl cA mcpBridgeEntryChars = false := (listIncl_false_iff _ _).2 hA1
  have hTA : jsTestAutoloadHeader cA = false := jsTest_false cA hA2
  have hpfA : fsRead (injectPreFiles A s₀.files) (projectFilePath A) = some cA := by
    rw [preFiles_read_pf A s₀.files (by rw [hcA]; exact hAL)]
    exact hcA
  set s₁ : ServerState :=
    { s₀ with
      files := fsWrite (injectPreFiles A s₀.files) (projectFilePath A)
        (injectedConfig cA),
      dirs := injectDirs A s₀.dirs,
      injected := A :: s₀.injected,
      activeRoot := some A, processActive := true } with hs₁def
  have hs1 : runProject A s₀ = s₁ := by
    rw [runProject_idle A s₀ hproc, inject_clean_eq A s₀ cA hAinj hpfA hEA hTA]
  have hrdA : fsRead s₁.files (projectFilePath A) = some (injectedConfig cA) := by
    show fsRead (fsWrite (injectPreFiles A s₀.files) (projectFilePath A)
      (injectedConfig cA)) (projectFilePath A) = some (injectedConfig cA)
    exact fsRead_write_same _ _ _
  have hremA := removeAutoload_on_injected A s₁.files cA hrdA hA1 hA2
  have hcfiles : (cleanupBridgeAutoload A s₁).files =
      removeAutoloadEntry A "McpBridge" "mcp_bridge.gd" s₁.files := rfl
  have hCpfA : fsRead (cleanupBridgeAutoload A s₁).files (projectFilePath A) =
      some (trimEndJs cA ++ ['\n']) := by
    rw [hcfiles]; exact hremA.1
  have hCscA : fsRead (cleanupBridgeAutoload A s₁).files
      (scriptFilePath A "mcp_bridge.gd") = none := by
    rw [hcfiles]; exact hremA.2
  have hCrdB : fsRead (cleanupBridgeAutoload A s₁).files (projectFilePath B) =
      some cB := by
    rw [cleanup_read_other A s₁ (projectFilePath B)
      (show projectFilePath B ≠ projectFilePath A from rootsKey_ne hBA hAB _ _)
      (show projectFilePath B ≠ scriptFilePath A "mcp_bridge.gd" from
        rootsKey_ne hBA hAB _ _)
      (show projectFilePath B ≠ uidFilePath A "mcp_bridge.gd" from
        rootsKey_ne hBA hAB _ _)]
    show fsRead (fsWrite (injectPreFiles A s₀.files) (projectFilePath A)
      (injectedConfig cA)) (projectFilePath B) = some cB
    rw [fsRead_write_ne _ _ _ _
      (show projectFilePath B ≠ projectFilePath A from rootsKey_ne hBA hAB _ _)]
    rw [preFiles_read_other A s₀.files (projectFilePath B)
      (rootsKey_ne hBA hAB _ _) (rootsKey_ne hBA hAB _ _) (rootsKey_ne hBA hAB _ _)
      (rootsKey_ne hBA hAB _ _) (rootsKey_ne hBA hAB _ _) (rootsKey_ne hBA hAB _ _)]
    exact hcB
  have hEB : listIncl cB mcpBridgeEntryChars = false := (listIncl_false_iff _ _).2 hB1
  have hTB : jsTestAutoloadHeader cB = false := jsTest_false cB hB2
  have hBmem : B ∉ (cleanupBridgeAutoload A s₁).injected := by
    refine cleanup_not_injected A B s₁ ?_
    show B ∉ A :: s₀.injected
    intro h
    rcases List.mem_cons.1 h with h | h
    · exact hABne h.symm
    · exact hBinj h
  have hpfB : fsRead (injectPreFiles B (cleanupBridgeAutoload A s₁).files)
      (projectFilePath B) = some cB := by
    rw [preFiles_read_pf B (cleanupBridgeAutoload A s₁).files (by rw [hCrdB]; exact hBL)]
    exact hCrdB
  have hfin : runProject B (runProject A s₀) =
      { cleanupBridgeAutoload A s₁ with
        files := fsWrite (injectPreFiles B (cleanupBridgeAutoload A s₁).files)
          (projectFilePath B) (injectedConfig cB),
        dirs := injectDirs B (cleanupBridgeAutoload A s₁).dirs,
        injected := B :: (cleanupBridgeAutoload A s₁).injected,
        activeRoot := some B, processActive := true } := by
    rw [hs1, runProject_switch B A s₁ rfl rfl hABne,
      inject_clean_eq B (cleanupBridgeAutoload A s₁) cB hBmem hpfB hEB hTB]
  rw [hfin]
  refine ⟨?_, no_entry_in_final (trimEndJs cA) (not_infix_trimEnd _ _ hA1), ?_, ?_,
    unique_entry_occurrence cB hB1⟩
  · show fsRead (fsWrite (injectPreFiles B (cleanupBridgeAutoload A s₁).files)
      (projectFilePath B) (injectedConfig cB)) (projectFilePath A) =
      some (trimEndJs cA ++ ['\n'])
    rw [fsRead_write_ne _ _ _ _
      (show projectFilePath A ≠ projectFilePath B from rootsKey_ne hAB hBA _ _)]
    rw [preFiles_read_other B _ (projectFilePath A)
      (rootsKey_ne hAB hBA _ _) (rootsKey_ne hAB hBA _ _) (rootsKey_ne hAB hBA _ _)
      (rootsKey_ne hAB hBA _ _) (rootsKey_ne hAB hBA _ _) (rootsKey_ne hAB hBA _ _)]
    exact hCpfA
  · show fsRead (fsWrite (injectPreFiles B (cleanupBridgeAutoload A s₁).files)
      (projectFilePath B) (injectedConfig cB)) (scriptFilePath A "mcp_bridge.gd") =
      none
    rw [fsRead_write_ne _ _ _ _
      (show scriptFilePath A "mcp_bridge.gd" ≠ projectFilePath B from
        rootsKey_ne hAB hBA _ _)]
    rw [preFiles_read_other B _ (scriptFilePath A "mcp_bridge.gd")
      (rootsKey_ne hAB hBA _ _) (rootsKey_ne hAB hBA _ _) (rootsKey_ne hAB hBA _ _)
      (rootsKey_ne hAB hBA _ _) (rootsKey_ne hAB hBA _ _) (rootsKey_ne hAB hBA _ _)]
    exact hCscA
  · show fsRead (fsWrite (injectPreFiles B (cleanupBridgeAutoload A s₁).files)
      (projectFilePath B) (injectedConfig cB)) (projectFilePath B) =
      some (injectedConfig cB)
    exact fsRead_write_same _ _ _

/-- A concrete two-project server state for exercising the root switch. -/
def c4S0 : ServerState :=
  { files := [(["A", "project.godot"], chars "[gd_scene]"),
              (["B", "project.godot"], chars "[gd_resource]")],
    dirs := [], injected := [], activeRoot := none, processActive := false }

theorem c4_witness :
    fsRead (runProject ["B"] (runProject ["A"] c4S0)).files (projectFilePath ["A"]) =
      some (trimEndJs (chars "[gd_scene]") ++ ['\n']) ∧
    ¬ mcpBridgeEntryChars <:+: (trimEndJs (chars "[gd_scene]") ++ ['\n']) ∧
    fsRead (runProject ["B"] (runProject ["A"] c4S0)).files
      (scriptFilePath ["A"] "mcp_bridge.gd") = none ∧
    fsRead (runProject ["B"] (runProject ["A"] c4S0)).files (projectFilePath ["B"]) =
      some (injectedConfig (chars "[gd_resource]")) ∧
    (∃! i : Nat, mcpBridgeEntryChars.isPrefixOf
      ((injectedConfig (chars "[gd_resource]")).drop i) = true) :=
  c4_switch_roots c4S0 ["A"] ["B"] (chars "[gd_scene]") (chars "[gd_resource]")
    (by decide) (by decide) rfl (by decide) (by decide) rfl rfl
    (by decide) (by decide) (by decide) (by decide) (by decide) (by decide)
